import Mathlib

/-!
Verification of the rustneat speciation engine (`src/speciation/*.rs`).

The Rust code is generic over an individual type `I: Individual<F>` and a
float type `F: num::Float`.  We embed `F` as `ℚ` (exact rationals; the code is
generic in `F` and the claims concern algorithmic structure, not binary float
rounding) and keep `I` as a type parameter.  Rust `Result`/panic outcomes are
modelled by the `RRes` type below: `.ok`/`.err` mirror `Result::Ok/Err`, and
`.panic` mirrors `panic!`/failed `assert!`/`.expect`/`.unwrap`/`todo!`.
-/

/-- Outcome of a Rust computation: `Ok`, `Err`, or a panic/failed assertion. -/
inductive RRes (α : Type) where
  | ok : α → RRes α
  | err : String → RRes α
  | panic : RRes α
deriving DecidableEq, Repr

/-- Modelled from the spec: the `Individual` capability contract
(`fitness() -> optional<Fitness>`, `is_compatible(other) -> bool`, spec §6).
The trait itself lives in `speciation/mod.rs`, which is not among the given
source files; only its uses are.  Policies and these two capabilities are
caller-supplied behaviour, embedded here as explicit function fields. -/
structure IndividualOps (I : Type) where
  fitness : I → Option ℚ
  is_compatible : I → I → Bool

/-- `Conf` from `conf.rs` (fields verbatim; the two f64 multipliers become ℚ). -/
structure Conf where
  total_population_size : Nat
  crossover : Bool
  young_age_threshold : Nat
  old_age_threshold : Nat
  species_max_stagnation : Nat
  young_age_fitness_boost : ℚ
  old_age_fitness_penalty : ℚ
deriving DecidableEq, Repr

/-- `Age` from `age.rs`. -/
structure Age where
  generations : Nat
  evaluations : Nat
  no_improvements : Nat
deriving DecidableEq, Repr

namespace Age

def new : Age := ⟨0, 0, 0⟩

def increase_generations (a : Age) : Age := { a with generations := a.generations + 1 }

def increase_evaluations (a : Age) : Age := { a with evaluations := a.evaluations + 1 }

def increase_no_improvements (a : Age) : Age := { a with no_improvements := a.no_improvements + 1 }

def reset_generations (a : Age) : Age := { a with generations := 0, no_improvements := 0 }

def reset_no_improvements (a : Age) : Age := { a with no_improvements := 0 }

def reset_evaluations (a : Age) : Age := { a with evaluations := 0 }

end Age

/-- `Indiv` from `species.rs`: an individual together with its
adjusted-fitness slot. -/
structure Indiv (I : Type) where
  individual : I
  adjusted_fitness : Option ℚ
deriving DecidableEq, Repr

/-- `Indiv::from(individual)` (adjusted fitness starts absent). -/
def Indiv.from_individual {I : Type} (individual : I) : Indiv I :=
  ⟨individual, none⟩

/-- `Species` from `species.rs`. -/
structure Species (I : Type) where
  individuals : List (Indiv I)
  id : Nat
  age : Age
  last_best_fitness : ℚ
deriving DecidableEq, Repr

/-- `RcSpecies` from `species.rs`: the staged clone of a species holding the
newly generated individuals (shared `Rc<RefCell<_>>` pointers in Rust; plain
values here since the claims are about counts, partitioning and contents). -/
structure RcSpecies (I : Type) where
  individuals : List I
  id : Nat
  age : Age
  last_best_fitness : ℚ
deriving DecidableEq, Repr

/-- Rust's derived `PartialOrd` on `Option<F>` (`None < Some`), exposed as the
linear order of `WithBot ℚ`. -/
def toWB (a : Option ℚ) : WithBot ℚ := a

/-- `a.fitness() > b.fitness()` in `species.rs` (strict `gt` on `Option<F>`). -/
def opt_gt (a b : Option ℚ) : Bool := decide (toWB b < toWB a)

namespace Species

def new {I : Type} (individual : I) (species_id : Nat) : Species I :=
  { individuals := [Indiv.from_individual individual]
    id := species_id
    age := Age.new
    last_best_fitness := 0 }

def len {I : Type} (s : Species I) : Nat := s.individuals.length

def is_empty {I : Type} (s : Species I) : Bool := s.individuals.isEmpty

/-- `representative`: the first individual, if any. -/
def representative {I : Type} (s : Species I) : Option I :=
  s.individuals.head?.map (·.individual)

/-- `is_compatible`: delegate to the representative; an empty species is never
compatible. -/
def is_compatible {I : Type} (ops : IndividualOps I) (s : Species I) (candidate : I) : Bool :=
  match s.representative with
  | some r => ops.is_compatible r candidate
  | none => false

/-- `insert`: append at the end. -/
def insert {I : Type} (s : Species I) (individual : I) : Species I :=
  { s with individuals := s.individuals ++ [Indiv.from_individual individual] }

/-- `set_individuals`: replace the whole roster. -/
def set_individuals {I : Type} (s : Species I) (l : List I) : Species I :=
  { s with individuals := l.map Indiv.from_individual }

/-- The fold of `Iterator::max_by` with the comparator
`if a.fitness() > b.fitness() { Greater } else { Less }` from
`get_best_individual`: the accumulator is kept only when strictly greater,
so on ties the later element wins. -/
def best_fold {I : Type} (ops : IndividualOps I) : Option I → List (Indiv I) → Option I
  | acc, [] => acc
  | acc, d :: rest =>
    let x := d.individual
    let acc' : Option I :=
      match acc with
      | none => some x
      | some a => if opt_gt (ops.fitness a) (ops.fitness x) then some a else some x
    best_fold ops acc' rest

/-- `get_best_individual`. -/
def get_best_individual {I : Type} (ops : IndividualOps I) (s : Species I) : Option I :=
  best_fold ops none s.individuals

/-- `get_best_fitness`. -/
def get_best_fitness {I : Type} (ops : IndividualOps I) (s : Species I) : Option ℚ :=
  (s.get_best_individual ops).bind ops.fitness

/-- `accumulated_adjusted_fitness`'s sum loop; `None` models the
`.expect("An individual has no adjusted fitness")` panic. -/
def sum_adjusted {I : Type} : List (Indiv I) → Option ℚ
  | [] => some 0
  | d :: rest =>
    match d.adjusted_fitness, sum_adjusted rest with
    | some a, some s => some (a + s)
    | _, _ => none

def accumulated_adjusted_fitness {I : Type} (s : Species I) : Option ℚ :=
  sum_adjusted s.individuals

/-- `Species::individual_adjusted_fitness` (`species.rs` lines 192-223):
returns the adjusted value together with the updated `age` and
`last_best_fitness` (mutated through `&mut` in Rust). -/
def individual_adjusted_fitness (fitness : ℚ) (is_best_species : Bool) (age : Age)
    (last_best_fitness : ℚ) (conf : Conf) : ℚ × Age × ℚ :=
  -- set small fitness if it is absent
  let fitness := if fitness = 0 then (0.0001 : ℚ) else fitness
  -- update the best fitness and stagnation counter
  let st : Age × ℚ :=
    if last_best_fitness ≤ fitness then (age.reset_no_improvements, fitness)
    else (age, last_best_fitness)
  let age := st.1
  let last_best_fitness := st.2
  let number_of_generations := age.generations
  -- boost the fitness up to some young age
  let fitness :=
    if number_of_generations < conf.young_age_threshold then
      fitness * conf.young_age_fitness_boost
    else fitness
  -- penalty for old species
  let fitness :=
    if conf.old_age_threshold < number_of_generations then
      fitness * conf.old_age_fitness_penalty
    else fitness
  -- extreme penalty if this species is stagnating for too long
  let fitness :=
    if ¬is_best_species ∧ conf.species_max_stagnation < age.no_improvements then
      fitness * (0.0000001 : ℚ)
    else fitness
  (fitness, age, last_best_fitness)

/-- The member loop of `compute_adjust_fitness` (`species.rs` lines 105-115),
threading the `age`/`last_best_fitness` state; `none` models the
`panic!("FITNESS CANNOT BE NEGATIVE")`. -/
def adjust_loop {I : Type} (ops : IndividualOps I) (is_best_species : Bool) (conf : Conf)
    (individual_n : Nat) :
    List (Indiv I) → Age → ℚ → Option (List (Indiv I) × Age × ℚ)
  | [], age, lbf => some ([], age, lbf)
  | d :: rest, age, lbf =>
    let fitness := (ops.fitness d.individual).getD 0
    if fitness < 0 then none
    else
      let r := individual_adjusted_fitness fitness is_best_species age lbf conf
      match adjust_loop ops is_best_species conf individual_n rest r.2.1 r.2.2 with
      | none => none
      | some (rest', age', lbf') =>
        some ({ d with adjusted_fitness := some (r.1 / (individual_n : ℚ)) } :: rest', age', lbf')

/-- `Species::compute_adjust_fitness` (`species.rs` lines 99-116); `none`
models the `assert!(!self.is_empty())` and the negative-fitness panic. -/
def compute_adjust_fitness {I : Type} (ops : IndividualOps I) (s : Species I)
    (is_best_species : Bool) (conf : Conf) : Option (Species I) :=
  if s.individuals.isEmpty then none
  else
    match adjust_loop ops is_best_species conf s.individuals.length s.individuals s.age
        s.last_best_fitness with
    | none => none
    | some (inds, age', lbf') =>
      some { s with individuals := inds, age := age', last_best_fitness := lbf' }

/-- `clone_with_new_individuals`. -/
def clone_with_new_individuals {I : Type} (s : Species I) (new_individuals : List I) :
    RcSpecies I :=
  { individuals := new_individuals
    id := s.id
    age := s.age
    last_best_fitness := s.last_best_fitness }

/-- `drain_individuals` as a value transformation: the drained list together
with the emptied species. -/
def drain_individuals {I : Type} (s : Species I) : List I × Species I :=
  (s.individuals.map (·.individual), { s with individuals := [] })

end Species

/-- `RcSpecies::promote`: turn the staged species back into a `Species`
(fresh, absent adjusted-fitness slots). -/
def RcSpecies.promote {I : Type} (s : RcSpecies I) : Species I :=
  { individuals := s.individuals.map Indiv.from_individual
    id := s.id
    age := s.age
    last_best_fitness := s.last_best_fitness }

/-- `SpeciesCollection` from `species_collection.rs`. -/
structure SpeciesCollection (I : Type) where
  collection : List (Species I)
  best : Option Nat
  cache_need_updating : Bool
deriving DecidableEq, Repr

namespace SpeciesCollection

def new {I : Type} : SpeciesCollection I :=
  { collection := [], best := none, cache_need_updating := true }

def new_from_iter {I : Type} (species : List (Species I)) : SpeciesCollection I :=
  { collection := species, best := none, cache_need_updating := true }

def len {I : Type} (c : SpeciesCollection I) : Nat := c.collection.length

/-- `push`: appends and sets `cache_need_updating = true`. -/
def push {I : Type} (c : SpeciesCollection I) (species : Species I) : SpeciesCollection I :=
  { c with collection := c.collection ++ [species], cache_need_updating := true }

/-- `cleanup`: `retain(!is_empty)` only — the cache flag is left untouched. -/
def cleanup {I : Type} (c : SpeciesCollection I) : SpeciesCollection I :=
  { c with collection := c.collection.filter (fun species => ¬species.is_empty) }

/-- `clear`: `self.collection.clear()` only — the cache flag is left untouched. -/
def clear {I : Type} (c : SpeciesCollection I) : SpeciesCollection I :=
  { c with collection := [] }

/-- `count_individuals`. -/
def count_individuals {I : Type} (c : SpeciesCollection I) : Nat :=
  (c.collection.map Species.len).sum

/-- The `enumerate().filter_map(best_fitness).max_by(..)` fold of
`_update_cache`: species without a best fitness are skipped, and ties keep the
later candidate (the comparator yields `Greater` only on strict `>`). -/
def cache_fold {I : Type} (ops : IndividualOps I) :
    Option (Nat × ℚ) → List (Nat × Species I) → Option (Nat × ℚ)
  | acc, [] => acc
  | acc, (i, species) :: rest =>
    match Species.get_best_fitness ops species with
    | none => cache_fold ops acc rest
    | some f =>
      let acc' : Option (Nat × ℚ) :=
        match acc with
        | none => some (i, f)
        | some (j, g) => if g > f then some (j, g) else some (i, f)
      cache_fold ops acc' rest

/-- `_update_cache`. -/
def update_cache {I : Type} (ops : IndividualOps I) (c : SpeciesCollection I) :
    SpeciesCollection I :=
  { c with
    best := (cache_fold ops none c.collection.enum).map (·.1)
    cache_need_updating := false }

/-- `get_best` (`&mut self`): panics on an empty collection, recomputes the
cache when dirty, and returns the cached index with the updated collection. -/
def get_best {I : Type} (ops : IndividualOps I) (c : SpeciesCollection I) :
    RRes (Option Nat × SpeciesCollection I) :=
  if c.collection.isEmpty then .panic
  else
    let c := if c.cache_need_updating then update_cache ops c else c
    .ok (c.best, c)

/-- Modelled from the spec: `get_worst(minimal_size, exclude_id_list)`.  The
version in `species_collection.rs` is an unimplemented `todo!()` stub whose
signature does not even match its call site in `genus.rs`
(`get_worst(1, Some(&excluded_id_list))`); spec §4.3/§9 fix the contract: scan
for the species with the minimum best-individual fitness among species with at
least `minimal_size` individuals whose id is not in the exclusion list,
returning its index and the species itself. -/
def get_worst {I : Type} (ops : IndividualOps I) (c : SpeciesCollection I)
    (minimal_size : Nat) (exclude_id_list : List Nat) : Option (Nat × Species I) :=
  (c.collection.enum.filter
      (fun p => minimal_size ≤ p.2.len ∧ ¬p.2.id ∈ exclude_id_list)).foldl
    (fun acc p =>
      match acc with
      | none => some p
      | some q =>
        if opt_gt (Species.get_best_fitness ops q.2) (Species.get_best_fitness ops p.2) then
          some p
        else some q)
    none

end SpeciesCollection

/-- `Genus` from `genus.rs`. -/
structure Genus (I : Type) where
  next_species_id : Nat
  species_collection : SpeciesCollection I
deriving DecidableEq, Repr

namespace Genus

/-- The accumulation loop of `calculate_average_fitness` (`genus.rs` lines
293-298): total adjusted fitness and number of individuals; `none` models the
panic inside `accumulated_adjusted_fitness`. -/
def total_and_count {I : Type} : List (Species I) → Option (ℚ × Nat)
  | [] => some (0, 0)
  | species :: rest =>
    match species.accumulated_adjusted_fitness, total_and_count rest with
    | some a, some (t, n) => some (t + a, n + species.len)
    | _, _ => none

/-- `Genus::calculate_average_fitness` (`genus.rs` lines 291-307). -/
def calculate_average_fitness {I : Type} (c : SpeciesCollection I) : RRes ℚ :=
  match total_and_count c.collection with
  | none => .panic
  | some (total_adjusted_fitness, number_of_individuals) =>
    if total_adjusted_fitness ≤ 0 then .err "Total adjusted fitness is <= 0"
    else .ok (total_adjusted_fitness / (number_of_individuals : ℚ))

/-- `Genus::calculate_population_size` (`genus.rs` lines 316-329):
`floor(acc / average).to_usize().unwrap()` per species; `.panic` models the
`accumulated_adjusted_fitness` panic and the `to_usize().unwrap()` panic on a
negative floor. -/
def calculate_population_size {I : Type} (average_adjusted_fitness : ℚ) :
    List (Species I) → RRes (List Nat)
  | [] => .ok []
  | species :: rest =>
    match species.accumulated_adjusted_fitness,
        calculate_population_size average_adjusted_fitness rest with
    | some acc, .ok l =>
      let offspring_amount := ⌊acc / average_adjusted_fitness⌋
      if offspring_amount < 0 then .panic else .ok (offspring_amount.toNat :: l)
    | _, .err e => .err e
    | _, _ => .panic

/-- The `while excess_offspring > 0` loop of `correct_population_size`
(`genus.rs` lines 356-372), with explicit fuel (the loop excludes a fresh
species id every iteration, so `collection.length + 2` steps always suffice;
running out of fuel cannot happen and is mapped to `.panic`).  `.panic` also
models the `.expect("Couldn't find the worst species")` and an out-of-bounds
`species_offspring_amount[i]`. -/
def correct_loop {I : Type} (ops : IndividualOps I) (c : SpeciesCollection I) :
    Nat → List Nat → Nat → List Nat → RRes (List Nat)
  | 0, _, _, _ => .panic
  | _ + 1, species_offspring_amount, 0, _ => .ok species_offspring_amount
  | fuel + 1, species_offspring_amount, excess + 1, excluded_id_list =>
    let excess_offspring := excess + 1
    match SpeciesCollection.get_worst ops c 1 excluded_id_list with
    | none => .panic
    | some (worst_species_i, worst_species) =>
      match species_offspring_amount[worst_species_i]? with
      | none => .panic
      | some current_amount =>
        if excess_offspring < current_amount then
          correct_loop ops c fuel
            (species_offspring_amount.set worst_species_i (current_amount - excess_offspring))
            0 (worst_species.id :: excluded_id_list)
        else
          correct_loop ops c fuel
            (species_offspring_amount.set worst_species_i 0)
            (excess_offspring - current_amount) (worst_species.id :: excluded_id_list)

/-- `Genus::correct_population_size` (`genus.rs` lines 341-380).  Returns the
corrected amounts together with the (possibly cache-updated) collection, since
`get_best` takes `&mut self`. -/
def correct_population_size {I : Type} (ops : IndividualOps I) (c : SpeciesCollection I)
    (species_offspring_amount : List Nat) (missing_offspring : Int) :
    RRes (List Nat) × SpeciesCollection I :=
  if 0 < missing_offspring then
    match SpeciesCollection.get_best ops c with
    | .ok (some i, c') =>
      match species_offspring_amount[i]? with
      | some amount =>
        (.ok (species_offspring_amount.set i (amount + missing_offspring.toNat)), c')
      | none => (.panic, c')
    | .ok (none, c') => (.panic, c')
    | _ => (.panic, c)
  else if missing_offspring < 0 then
    (correct_loop ops c (c.collection.length + 2) species_offspring_amount
      (-missing_offspring).toNat [], c)
  else
    (.ok species_offspring_amount, c)

/-- `Genus::count_offsprings` (`genus.rs` lines 262-286).  The
`calculate_average_fitness().expect(..)` turns the `Err` into a panic. -/
def count_offsprings {I : Type} (ops : IndividualOps I) (c : SpeciesCollection I)
    (number_of_individuals : Nat) : RRes (List Nat) × SpeciesCollection I :=
  if number_of_individuals = 0 then (.panic, c)
  else
    match calculate_average_fitness c with
    | .err _ => (.panic, c)
    | .panic => (.panic, c)
    | .ok average_adjusted_fitness =>
      match calculate_population_size average_adjusted_fitness c.collection with
      | .err e => (.err e, c)
      | .panic => (.panic, c)
      | .ok species_offspring_amount =>
        let offspring_amount_sum := species_offspring_amount.sum
        let missing_offsprings : Int :=
          (number_of_individuals : Int) - (offspring_amount_sum : Int)
        if missing_offsprings = 0 then (.ok species_offspring_amount, c)
        else
          match correct_population_size ops c species_offspring_amount missing_offsprings with
          | (.ok corrected, c') =>
            if corrected.sum = number_of_individuals then (.ok corrected, c')
            else
              (.err "Generated species_offspring_amount does not equal number_of_individuals", c')
          | (.err e, c') => (.err e, c')
          | (.panic, c') => (.panic, c')

end Genus

/-- `GenusSeed` from `genus_seed.rs`. -/
structure GenusSeed (I : Type) where
  orphans : List I
  new_species_collection : List (RcSpecies I)
  need_evaluation : List I
  old_species_individuals : List (List I)
deriving DecidableEq, Repr

namespace Genus

/-- `Genus::generate_new_individual` (`genus.rs` lines 219-254): one child from
the species' member pool, via two-parent crossover when enabled and possible,
one-parent reproduction otherwise, then mutation.  `.panic` models
`assert!(parent_pool_size > 0)`.  The caller-supplied `FnMut` policies are
embedded as (pure) functions on the pool. -/
def generate_new_individual {I : Type} (conf : Conf) (population : List I)
    (selection : List I → I) (parent_selection : List I → I × I)
    (reproduce_individual_1 : I → I) (crossover_individual_2 : I → I → I)
    (mutate_individual : I → I) : RRes I :=
  if population.length = 0 then .panic
  else
    let child : I :=
      if conf.crossover ∧ 1 < population.length then
        let parents := parent_selection population
        crossover_individual_2 parents.1 parents.2
      else
        reproduce_individual_1 (selection population)
    .ok (mutate_individual child)

/-- `k` executions of the inner loop body of `generate_new_individuals`
(`genus.rs` lines 160-186, sans partitioning). -/
def gen_many {I : Type} (conf : Conf) (population : List I)
    (selection : List I → I) (parent_selection : List I → I × I)
    (reproduce_individual_1 : I → I) (crossover_individual_2 : I → I → I)
    (mutate_individual : I → I) : Nat → RRes (List I)
  | 0 => .ok []
  | k + 1 =>
    match generate_new_individual conf population selection parent_selection
        reproduce_individual_1 crossover_individual_2 mutate_individual with
    | .ok child =>
      match gen_many conf population selection parent_selection reproduce_individual_1
          crossover_individual_2 mutate_individual k with
      | .ok children => .ok (child :: children)
      | r => r
    | .err e => .err e
    | .panic => .panic

/-- The nested loops `for n_offspring in 0..q { for _ in 0..n_offspring { .. } }`
of `generate_new_individuals` (`genus.rs` lines 159-160): the inner body runs
`n_offspring` times for each `n_offspring` in `0..q`. -/
def nested_children {I : Type} (conf : Conf) (population : List I)
    (selection : List I → I) (parent_selection : List I → I × I)
    (reproduce_individual_1 : I → I) (crossover_individual_2 : I → I → I)
    (mutate_individual : I → I) (q : Nat) : RRes (List I) :=
  (List.range q).foldr
    (fun n_offspring acc =>
      match gen_many conf population selection parent_selection reproduce_individual_1
          crossover_individual_2 mutate_individual n_offspring, acc with
      | .ok xs, .ok ys => .ok (xs ++ ys)
      | .err e, _ => .err e
      | .panic, _ => .panic
      | _, r => r)
    (.ok [])

/-- The per-species pass of `generate_new_individuals` (`genus.rs` lines
155-192): each produced child is registered in `need_evaluation`, then staged
into its species' new roster when compatible with the (old) species, and into
`orphans` otherwise; the species is cloned with the staged roster.  `.panic`
models an out-of-range `offspring_amounts[species_i]`. -/
def gen_pass {I : Type} (ops : IndividualOps I) (conf : Conf)
    (selection : List I → I) (parent_selection : List I → I × I)
    (reproduce_individual_1 : I → I) (crossover_individual_2 : I → I → I)
    (mutate_individual : I → I) :
    List (Species I) → List Nat → RRes (List (RcSpecies I) × List I × List I)
  | [], _ => .ok ([], [], [])
  | _ :: _, [] => .panic
  | species :: rest, q :: qrest =>
    match nested_children conf (species.individuals.map (·.individual)) selection
        parent_selection reproduce_individual_1 crossover_individual_2 mutate_individual q with
    | .err e => .err e
    | .panic => .panic
    | .ok children =>
      let new_individuals := children.filter (fun child => species.is_compatible ops child)
      let new_orphans := children.filter (fun child => ¬species.is_compatible ops child)
      match gen_pass ops conf selection parent_selection reproduce_individual_1
          crossover_individual_2 mutate_individual rest qrest with
      | .ok (new_species_collection, orphans, need_evaluation) =>
        .ok (species.clone_with_new_individuals new_individuals :: new_species_collection,
          new_orphans ++ orphans, children ++ need_evaluation)
      | .err e => .err e
      | .panic => .panic

/-- `Genus::generate_new_individuals` (`genus.rs` lines 125-205): computes the
offspring amounts, generates and partitions the new individuals, then drains
every old species' individuals into the seed's
`old_species_individuals` snapshot (mutating `self`). -/
def generate_new_individuals {I : Type} (ops : IndividualOps I) (g : Genus I) (conf : Conf)
    (selection : List I → I) (parent_selection : List I → I × I)
    (reproduce_individual_1 : I → I) (crossover_individual_2 : I → I → I)
    (mutate_individual : I → I) : RRes (GenusSeed I × Genus I) :=
  match count_offsprings ops g.species_collection conf.total_population_size with
  | (.ok offspring_amounts, c1) =>
    match gen_pass ops conf selection parent_selection reproduce_individual_1
        crossover_individual_2 mutate_individual c1.collection offspring_amounts with
    | .ok (new_species_collection, orphans, need_evaluation) =>
      let old_species_individuals_vec :=
        c1.collection.map (fun species => (species.drain_individuals).1)
      let drained :=
        { c1 with collection := c1.collection.map (fun species => (species.drain_individuals).2) }
      .ok (⟨orphans, new_species_collection, need_evaluation, old_species_individuals_vec⟩,
        ⟨g.next_species_id, drained⟩)
    | .err e => .err e
    | .panic => .panic
  | (.err _, _) => .panic
  | (.panic, _) => .panic

/-- The orphan-adoption loop of `next_generation` (`genus.rs` lines 401-414):
each orphan joins the first compatible species of the new collection, or
founds a new species with a fresh id. -/
def adopt_orphans {I : Type} (ops : IndividualOps I) :
    List I → SpeciesCollection I → Nat → SpeciesCollection I × Nat
  | [], c, next_id => (c, next_id)
  | orphan :: rest, c, next_id =>
    match c.collection.findIdx? (fun species => species.is_compatible ops orphan) with
    | some i =>
      let c' := { c with collection :=
        match c.collection[i]? with
        | some species => c.collection.set i (species.insert orphan)
        | none => c.collection }
      adopt_orphans ops rest c' next_id
    | none =>
      adopt_orphans ops rest (c.push (Species.new orphan next_id)) (next_id + 1)

/-- `genus.rs` lines 416-418: the target passed to the quota recount inside
`next_generation` — `new_population_size` is hard-coded to `0`
(`//TODO list_of_new_species.count_individuals();`), so the recount target is
`conf.total_population_size - 0`. -/
def next_generation_recount_target (conf : Conf) : Nat :=
  let new_population_size := 0
  conf.total_population_size - new_population_size

/-- The population-management zip of `next_generation` (`genus.rs` lines
426-453): each new species paired (by position) with the previous generation's
members of the species at the same index is drained and replaced by the roster
the caller-supplied `population_management` policy builds from
`(new_individuals, old_individuals, offspring_amounts[species_i])`.  The
`species_i > old_len` check mirrors the (dead) early-`break` guard. -/
def pm_pass {I : Type} (population_management : List I → List I → Nat → List I)
    (offspring_amounts : List Nat) (old_len : Nat) :
    List (Species I) → List (List I) → Nat → RRes (List (Species I))
  | species_list, [], _ => .ok species_list
  | [], _, _ => .ok []
  | species :: rest_species, old_individuals :: rest_old, species_i =>
    if old_len < species_i then .ok (species :: rest_species)
    else
      match offspring_amounts[species_i]? with
      | none => .panic
      | some quota =>
        let drained := species.drain_individuals
        let new_individuals := population_management drained.1 old_individuals quota
        match pm_pass population_management offspring_amounts old_len rest_species rest_old
            (species_i + 1) with
        | .ok rest' => .ok (drained.2.set_individuals new_individuals :: rest')
        | .err e => .err e
        | .panic => .panic

/-- Modelled from the spec: `has_unique_elements` from `util/iterators.rs`,
which is not among the given source files; spec §4.4 step 6 fixes the
contract — `true` exactly when no element repeats. -/
def has_unique_elements (l : List Nat) : Bool := decide l.Nodup

/-- `Genus::next_generation` (`genus.rs` lines 382-475): promote the staged
species, adopt orphans (allocating fresh ids), recount offspring quotas
against `next_generation_recount_target`, run population management, assert
unique ids, prune empty species, and assert the exact final population size.
`.panic` models the `.unwrap()`/`assert!`/`panic!` calls. -/
def next_generation {I : Type} (ops : IndividualOps I) (g : Genus I) (conf : Conf)
    (generated_individuals : GenusSeed I)
    (population_management : List I → List I → Nat → List I) : RRes (Genus I) :=
  let new_species_collection := SpeciesCollection.new_from_iter
    (generated_individuals.new_species_collection.map RcSpecies.promote)
  let adopted := adopt_orphans ops generated_individuals.orphans new_species_collection
    g.next_species_id
  let new_species_collection := adopted.1
  let local_next_species_id := adopted.2
  let target := next_generation_recount_target conf
  match count_offsprings ops g.species_collection target with
  | (.err _, _) => .panic
  | (.panic, _) => .panic
  | (.ok offspring_amounts, _) =>
    if offspring_amounts.sum ≠ target then .panic
    else
      match pm_pass population_management offspring_amounts g.species_collection.len
          new_species_collection.collection generated_individuals.old_species_individuals 0 with
      | .err _ => .panic
      | .panic => .panic
      | .ok managed =>
        if ¬has_unique_elements (managed.map (·.id)) then .panic
        else
          let cleaned := SpeciesCollection.cleanup { new_species_collection with collection := managed }
          if cleaned.count_individuals ≠ conf.total_population_size then .panic
          else .ok ⟨local_next_species_id, cleaned⟩

end Genus

/-!
Helper definitions used to state and prove the claims.
-/

/-- The per-member watermark/stagnation state step of
`individual_adjusted_fitness` (`species.rs` lines 193-202): substitute the
epsilon for a zero fitness, then reset the no-improvement streak and raise the
watermark when the substituted fitness reaches it. -/
def wm_step (st : Age × ℚ) (raw : ℚ) : Age × ℚ :=
  let g := if raw = 0 then (0.0001 : ℚ) else raw
  if st.2 ≤ g then (st.1.reset_no_improvements, g) else st

/-- The watermark state after processing a list of raw fitness values. -/
def wm_state (st : Age × ℚ) (raws : List ℚ) : Age × ℚ :=
  raws.foldl wm_step st

/-- The raw fitness values of a member list, as read by
`compute_adjust_fitness` (`fitness().unwrap_or(zero)`). -/
def fit_list {I : Type} (ops : IndividualOps I) (l : List (Indiv I)) : List ℚ :=
  l.map (fun d => (ops.fitness d.individual).getD 0)

/-- The member list produced by the `compute_adjust_fitness` pass, as a map
threading the watermark state. -/
def adj_map {I : Type} (ops : IndividualOps I) (is_best : Bool) (conf : Conf) (n : Nat) :
    Age × ℚ → List (Indiv I) → List (Indiv I)
  | _, [] => []
  | st, d :: rest =>
    let f := (ops.fitness d.individual).getD 0
    let v := (Species.individual_adjusted_fitness f is_best st.1 st.2 conf).1 / (n : ℚ)
    { d with adjusted_fitness := some v } :: adj_map ops is_best conf n (wm_step st f) rest

/-- The adjusted-fitness formula described by (the amended) claim C3: raw
fitness with the 1e-4 epsilon substituted for an exact zero, times the young
boost, the old penalty and the 1e-7 stagnation penalty factors, divided by the
species size.  `ni` receives the no-improvement streak as it stands after the
watermark check for the member. -/
def claimed_adjusted_fitness (raw : ℚ) (is_best : Bool) (generations ni : Nat)
    (conf : Conf) (size : Nat) : ℚ :=
  (if raw = 0 then (0.0001 : ℚ) else raw) *
    (if generations < conf.young_age_threshold then conf.young_age_fitness_boost else 1) *
    (if conf.old_age_threshold < generations then conf.old_age_fitness_penalty else 1) *
    (if ¬is_best ∧ conf.species_max_stagnation < ni then (0.0000001 : ℚ) else 1) /
    (size : ℚ)

/-- The binary pick of the `max_by` fold (keeps the accumulator only when its
fitness is strictly greater, so ties go to the right argument). -/
def pick {I : Type} (ops : IndividualOps I) (a x : I) : I :=
  if opt_gt (ops.fitness a) (ops.fitness x) then a else x

/-!
Concrete instances used by the counterexamples and witnesses.
-/

/-- Individuals are plain naturals; everyone is compatible with everyone, and
the fitness table is supplied per instance. -/
def natOps (fitness : Nat → Option ℚ) : IndividualOps Nat :=
  ⟨fitness, fun _ _ => true⟩

/-- A configuration with the default thresholds of `Conf::default()` and a
population size of 2. -/
def conf2 : Conf := ⟨2, true, 10, 40, 400, 1.1, 0.9⟩

/-- One species, two members, adjusted fitness 1/2 each. -/
def spC1 : Species Nat :=
  ⟨[⟨0, some (1/2)⟩, ⟨1, some (1/2)⟩], 1, Age.new, 0⟩

def genusC1 : Genus Nat := ⟨2, ⟨[spC1], none, true⟩⟩

def opsC1 : IndividualOps Nat := natOps (fun _ => some 1)

def selHead : List Nat → Nat := fun l => l.headD 0

def pselHead : List Nat → Nat × Nat := fun l => (l.headD 0, l.headD 0)

/-- Scenario collection for C2: accumulated adjusted fitness [30, 10] over
6 + 4 = 10 individuals; the first species holds the best raw fitness. -/
def spC2a : Species Nat :=
  ⟨[⟨0, some 5⟩, ⟨1, some 5⟩, ⟨2, some 5⟩, ⟨3, some 5⟩, ⟨4, some 5⟩, ⟨5, some 5⟩],
    1, Age.new, 0⟩

def spC2b : Species Nat :=
  ⟨[⟨6, some (5/2)⟩, ⟨7, some (5/2)⟩, ⟨8, some (5/2)⟩, ⟨9, some (5/2)⟩], 2, Age.new, 0⟩

def collC2 : SpeciesCollection Nat := ⟨[spC2a, spC2b], none, true⟩

def opsC2 : IndividualOps Nat := natOps (fun k => if k < 6 then some 2 else some 1)

/-- C2 counterexample: one species whose single member has an adjusted fitness
but no raw fitness at all. -/
def collC2x : SpeciesCollection Nat := ⟨[⟨[⟨0, some 1⟩], 1, Age.new, 0⟩], none, true⟩

def opsNone : IndividualOps Nat := natOps (fun _ => none)

/-- C3 counterexample/witness species: one member, raw fitness 5, watermark 10,
no-improvement streak 401 (past the stagnation limit 400), generation 10 (so
neither the young boost nor the old penalty applies under `confBig`). -/
def confBig : Conf := ⟨100, true, 10, 40, 400, 1.1, 0.9⟩

def spC3 : Species Nat := ⟨[⟨7, none⟩], 3, ⟨10, 0, 401⟩, 10⟩

def opsC3 : IndividualOps Nat := natOps (fun _ => some 5)

/-- C3 counterexample species: watermark 0, so the member's fitness reaches it
and the streak is reset before the stagnation check. -/
def spC3x : Species Nat := ⟨[⟨7, none⟩], 3, ⟨10, 0, 401⟩, 0⟩

/-- C4 species: members with raw fitness 3 and 5, watermark 4,
no-improvement streak 401. -/
def spC4 : Species Nat := ⟨[⟨0, none⟩, ⟨1, none⟩], 1, ⟨10, 0, 401⟩, 4⟩

def opsC4 : IndividualOps Nat := natOps (fun k => if k = 0 then some 3 else some 5)

/-- The species state `compute_adjust_fitness` leaves behind for `spC4`. -/
def spC4' : Species Nat :=
  ⟨[⟨0, some (3/20000000)⟩, ⟨1, some (5/2)⟩], 1, ⟨10, 0, 0⟩, 5⟩

/-- The species state a second `compute_adjust_fitness` call leaves behind. -/
def spC4'' : Species Nat :=
  ⟨[⟨0, some (3/2)⟩, ⟨1, some (5/2)⟩], 1, ⟨10, 0, 0⟩, 5⟩

/-- C5 species: two members with the same raw fitness. -/
def spC5 : Species Nat := ⟨[⟨10, none⟩, ⟨20, none⟩], 1, Age.new, 0⟩

/-- C6 collection: a clean (not dirty) cache and one empty species, so that
`cleanup` changes membership. -/
def collC6 : SpeciesCollection Nat :=
  ⟨[⟨[⟨0, some 1⟩], 1, Age.new, 0⟩, ⟨[], 2, Age.new, 0⟩], some 0, false⟩

/-- C9 collection: one species, one member, adjusted fitness exactly 0. -/
def collC9 : SpeciesCollection Nat := ⟨[⟨[⟨0, some 0⟩], 1, Age.new, 0⟩], none, true⟩

/-- C10 species: a lone member whose raw fitness is absent. -/
def spC10 : Species Nat := ⟨[⟨0, none⟩], 1, Age.new, 0⟩

def opsZero : IndividualOps Nat := natOps (fun _ => some 0)

/-!
Helper lemmas.
-/

theorem toWB_none : toWB none = (⊥ : WithBot ℚ) := rfl

theorem toWB_some (a : ℚ) : toWB (some a) = (a : WithBot ℚ) := rfl

theorem opt_gt_eq_true {u v : Option ℚ} : opt_gt u v = true ↔ toWB v < toWB u := by
  simp [opt_gt]

theorem opt_gt_eq_false {u v : Option ℚ} : opt_gt u v = false ↔ ¬toWB v < toWB u := by
  simp [opt_gt]

theorem opt_gt_some_some (a b : ℚ) : opt_gt (some a) (some b) = decide (b < a) := by
  simp only [opt_gt, toWB_some]
  exact decide_eq_decide.mpr WithBot.coe_lt_coe

theorem opt_gt_none (b : Option ℚ) : opt_gt none b = false := by
  simp [opt_gt, toWB_none]

/-!
Claim C6.
-/

/-- Claim C6, counterexample: `cleanup` removes an empty species (membership
changes) yet leaves the best-index cache flag clean, and `clear` also leaves
the flag untouched, contradicting the claim that all three of `push`, `clear`,
`cleanup` mark the cache dirty. -/
theorem c6_counterexample :
    collC6.cleanup.collection.length = 1 ∧
    collC6.collection.length = 2 ∧
    collC6.cleanup.cache_need_updating = false ∧
    collC6.clear.cache_need_updating = false ∧
    collC6.cleanup.best = some 0 := by
  refine ⟨?_, rfl, rfl, rfl, rfl⟩
  simp [collC6, SpeciesCollection.cleanup, Species.is_empty, List.filter]

/-- Claim C6, amended: `push` marks the best-index cache dirty, but `clear`
and `cleanup` mutate the sequence while leaving both the dirty flag and the
cached index untouched, so a later `get_best` may reuse a stale cached
index. -/
theorem c6_amended {I : Type} (c : SpeciesCollection I) (s : Species I) :
    (c.push s).cache_need_updating = true ∧
    c.cleanup.cache_need_updating = c.cache_need_updating ∧
    c.clear.cache_need_updating = c.cache_need_updating ∧
    c.cleanup.best = c.best ∧
    c.clear.best = c.best :=
  ⟨rfl, rfl, rfl, rfl, rfl⟩

/-!
Claim C9.
-/

/-- Claim C9: whenever the total adjusted fitness across all species is at
most zero (in particular exactly zero), `calculate_average_fitness` returns
the recoverable `Err` (ConfigurationError) — no average is computed and no
retry happens; the panic path is only for an absent adjusted fitness. -/
theorem c9_confirmed {I : Type} (c : SpeciesCollection I) (t : ℚ) (cnt : Nat)
    (h : Genus.total_and_count c.collection = some (t, cnt)) (hle : t ≤ 0) :
    Genus.calculate_average_fitness c = .err "Total adjusted fitness is <= 0" := by
  unfold Genus.calculate_average_fitness
  rw [h]
  simp [hle]

/-- Claim C9, witness: a species whose lone member has adjusted fitness 0. -/
theorem c9_witness :
    Genus.total_and_count collC9.collection = some (0, 1) ∧
    Genus.calculate_average_fitness collC9 = .err "Total adjusted fitness is <= 0" := by
  have h : Genus.total_and_count collC9.collection = some (0, 1) := by
    simp [Genus.total_and_count, collC9, Species.accumulated_adjusted_fitness,
      Species.sum_adjusted, Species.len]
  exact ⟨h, c9_confirmed collC9 0 1 h le_rfl⟩

/-!
Claim C7.
-/

/-- Claim C7: the quota recount inside `next_generation` targets
`total_population_size - new_population_size` with `new_population_size`
hard-coded to 0 (the `//TODO` in `genus.rs` line 417), so the target always
equals the full `total_population_size` and never subtracts the individuals
already fixed by orphan adoption. -/
theorem c7_recount_target :
    (∀ conf : Conf, Genus.next_generation_recount_target conf = conf.total_population_size) ∧
    Genus.next_generation_recount_target conf2 = 2 := by
  refine ⟨fun conf => ?_, rfl⟩
  simp [Genus.next_generation_recount_target]

/-!
Claim C5.
-/

/-- Claim C5, counterexample: two members share the maximal raw fitness and
`get_best_individual` returns the second (the comparator yields `Greater` only
on strict `>`, so `max_by` keeps the later element); the claim says the first
occurrence (individual 10) wins. -/
theorem c5_counterexample :
    Species.get_best_individual opsC1 spC5 = some 20 ∧
    Species.get_best_individual opsC1 spC5 ≠ some 10 ∧
    opsC1.fitness 10 = opsC1.fitness 20 := by
  have h : Species.get_best_individual opsC1 spC5 = some 20 := by
    simp [Species.get_best_individual, Species.best_fold, spC5, opsC1, natOps,
      opt_gt_some_some]
  exact ⟨h, by rw [h]; simp, rfl⟩

/-- The `max_by` fold started from a non-empty accumulator returns the last
element attaining the maximum of the accumulator and the list. -/
theorem best_fold_lastmax {I : Type} (ops : IndividualOps I) :
    ∀ (l : List (Indiv I)) (a : I),
      ∃ b l1 l2,
        Species.best_fold ops (some a) l = some b ∧
        a :: l.map (·.individual) = l1 ++ b :: l2 ∧
        (∀ x ∈ a :: l.map (·.individual), ¬toWB (ops.fitness b) < toWB (ops.fitness x)) ∧
        (∀ x ∈ l2, toWB (ops.fitness x) < toWB (ops.fitness b))
  | [], a => by
    refine ⟨a, [], [], rfl, rfl, ?_, by simp⟩
    intro x hx
    simp at hx
    subst hx
    exact lt_irrefl _
  | d :: rest, a => by
    rw [Species.best_fold]
    by_cases hcmp : opt_gt (ops.fitness a) (ops.fitness d.individual) = true
    · -- accumulator survives: fitness of `d` is strictly below
      have hlt : toWB (ops.fitness d.individual) < toWB (ops.fitness a) :=
        opt_gt_eq_true.mp hcmp
      simp only [hcmp, if_true]
      obtain ⟨b, l1, l2, hfold, hdec, hmax, hlast⟩ := best_fold_lastmax ops rest a
      have hab : ¬toWB (ops.fitness b) < toWB (ops.fitness a) := hmax a (by simp)
      match l1, hdec with
      | [], hdec =>
        have hba : a = b := by simpa using congrArg List.head? hdec
        subst hba
        have hl2 : rest.map (·.individual) = l2 := by simpa using congrArg List.tail hdec
        refine ⟨a, [], d.individual :: rest.map (·.individual), hfold, by simp, ?_, ?_⟩
        · intro x hx
          rcases List.mem_cons.mp hx with hx | hx
          · subst hx; exact hmax _ (by simp)
          · rcases List.mem_cons.mp hx with hx | hx
            · subst hx; exact not_lt.mpr (le_of_lt hlt)
            · exact hmax _ (by simp [hx])
        · intro x hx
          rcases List.mem_cons.mp hx with hx | hx
          · subst hx; exact hlt
          · exact hlast _ (by rw [← hl2]; exact hx)
      | a' :: l1', hdec =>
        have ha' : a = a' := by simpa using congrArg List.head? hdec
        subst ha'
        have htail : rest.map (·.individual) = l1' ++ b :: l2 := by
          simpa using congrArg List.tail hdec
        refine ⟨b, a :: d.individual :: l1', l2, hfold, by simp [htail], ?_, hlast⟩
        intro x hx
        rcases List.mem_cons.mp hx with hx | hx
        · subst hx; exact hmax _ (by simp)
        · rcases List.mem_cons.mp hx with hx | hx
          · subst hx
            exact not_lt.mpr (le_of_lt (lt_of_lt_of_le hlt (not_lt.mp hab)))
          · exact hmax _ (by simp [hx])
    · -- the new element takes over the accumulator
      have hle : ¬toWB (ops.fitness d.individual) < toWB (ops.fitness a) :=
        opt_gt_eq_false.mp (Bool.eq_false_iff.mpr hcmp)
      simp only [hcmp, if_false]
      obtain ⟨b, l1, l2, hfold, hdec, hmax, hlast⟩ := best_fold_lastmax ops rest d.individual
      have hxb : ¬toWB (ops.fitness b) < toWB (ops.fitness d.individual) := hmax _ (by simp)
      refine ⟨b, a :: l1, l2, hfold, by simp [← hdec], ?_, hlast⟩
      intro x hx
      rcases List.mem_cons.mp hx with hx | hx
      · subst hx
        exact not_lt.mpr ((not_lt.mp hle).trans (not_lt.mp hxb))
      · exact hmax _ (by simpa using hx)

/-- Claim C5, amended: `get_best_individual` returns a member attaining the
maximal raw fitness (in Rust's `Option` order, `None` below every value), and
on ties the LAST such member in iteration order wins — every member strictly
after the returned one has strictly smaller fitness; `get_best_fitness`
returns that member's (maximal) fitness. -/
theorem c5_amended {I : Type} (ops : IndividualOps I) (s : Species I)
    (h : s.individuals ≠ []) :
    ∃ b l1 l2,
      Species.get_best_individual ops s = some b ∧
      Species.get_best_fitness ops s = ops.fitness b ∧
      s.individuals.map (·.individual) = l1 ++ b :: l2 ∧
      (∀ x ∈ s.individuals.map (·.individual), ¬toWB (ops.fitness b) < toWB (ops.fitness x)) ∧
      (∀ x ∈ l2, toWB (ops.fitness x) < toWB (ops.fitness b)) := by
  match hs : s.individuals, h with
  | d :: rest, _ =>
    obtain ⟨b, l1, l2, hfold, hdec, hmax, hlast⟩ := best_fold_lastmax ops rest d.individual
    have hget : Species.get_best_individual ops s = some b := by
      rw [Species.get_best_individual, hs, Species.best_fold]
      exact hfold
    refine ⟨b, l1, l2, hget, ?_, by simpa using hdec, ?_, hlast⟩
    · rw [Species.get_best_fitness, hget]
      rfl
    · intro x hx
      exact hmax x (by simpa using hx)

/-- Claim C5 witness: applying the amended theorem to the tied species. -/
theorem c5_witness :
    ∃ b l1 l2,
      Species.get_best_individual opsC1 spC5 = some b ∧
      Species.get_best_fitness opsC1 spC5 = opsC1.fitness b ∧
      spC5.individuals.map (·.individual) = l1 ++ b :: l2 ∧
      (∀ x ∈ spC5.individuals.map (·.individual),
        ¬toWB (opsC1.fitness b) < toWB (opsC1.fitness x)) ∧
      (∀ x ∈ l2, toWB (opsC1.fitness x) < toWB (opsC1.fitness b)) :=
  c5_amended opsC1 spC5 (by simp [spC5])

/-!
Characterization of the `compute_adjust_fitness` pass.
-/

theorem reset_no_improvements_generations (a : Age) :
    a.reset_no_improvements.generations = a.generations := rfl

/-- The state part of `individual_adjusted_fitness` is exactly `wm_step`. -/
theorem iaf_state (f : ℚ) (b : Bool) (a : Age) (lb : ℚ) (conf : Conf) :
    (Species.individual_adjusted_fitness f b a lb conf).2 = wm_step (a, lb) f := by
  unfold Species.individual_adjusted_fitness wm_step
  by_cases h : lb ≤ (if f = 0 then (0.0001 : ℚ) else f) <;> simp [h]

/-- The value part of `individual_adjusted_fitness` as the flat product of the
epsilon-substituted fitness with the young/old/stagnation factors; the
stagnation factor reads the no-improvement streak after the watermark check. -/
theorem iaf_value (f : ℚ) (b : Bool) (a : Age) (lb : ℚ) (conf : Conf) :
    (Species.individual_adjusted_fitness f b a lb conf).1 =
      (if f = 0 then (0.0001 : ℚ) else f) *
        (if a.generations < conf.young_age_threshold then conf.young_age_fitness_boost else 1) *
        (if conf.old_age_threshold < a.generations then conf.old_age_fitness_penalty else 1) *
        (if ¬b ∧ conf.species_max_stagnation < (wm_step (a, lb) f).1.no_improvements then
          (0.0000001 : ℚ) else 1) := by
  unfold Species.individual_adjusted_fitness wm_step
  by_cases h : lb ≤ (if f = 0 then (0.0001 : ℚ) else f) <;>
    simp only [h, if_true, if_false, reset_no_improvements_generations] <;>
    split_ifs <;> ring

theorem wm_state_nil (st : Age × ℚ) : wm_state st [] = st := rfl

theorem wm_state_cons (st : Age × ℚ) (f : ℚ) (fs : List ℚ) :
    wm_state st (f :: fs) = wm_state (wm_step st f) fs := rfl

/-- `wm_step`/`wm_state` never change the generation counter. -/
theorem wm_step_generations (st : Age × ℚ) (f : ℚ) :
    (wm_step st f).1.generations = st.1.generations := by
  unfold wm_step
  by_cases h : st.2 ≤ (if f = 0 then (0.0001 : ℚ) else f) <;>
    simp [h, Age.reset_no_improvements]

theorem wm_state_generations : ∀ (fs : List ℚ) (st : Age × ℚ),
    (wm_state st fs).1.generations = st.1.generations
  | [], _ => rfl
  | f :: fs, st => by
    rw [wm_state_cons, wm_state_generations fs, wm_step_generations]

/-- The member loop equals the `adj_map`/`wm_state` decomposition, given that
no member has a negative raw fitness. -/
theorem adjust_loop_eq {I : Type} (ops : IndividualOps I) (b : Bool) (conf : Conf) (n : Nat) :
    ∀ (l : List (Indiv I)) (age : Age) (lbf : ℚ),
      (∀ f ∈ fit_list ops l, 0 ≤ f) →
      Species.adjust_loop ops b conf n l age lbf =
        some (adj_map ops b conf n (age, lbf) l,
          wm_state (age, lbf) (fit_list ops l))
  | [], age, lbf, _ => by simp [Species.adjust_loop, adj_map, wm_state, fit_list]
  | d :: rest, age, lbf, h => by
    have hd : 0 ≤ (ops.fitness d.individual).getD 0 := h _ (by simp [fit_list])
    have hrest : ∀ f ∈ fit_list ops rest, 0 ≤ f := by
      intro f hf
      exact h f (by simp [fit_list] at hf ⊢; exact Or.inr hf)
    rw [Species.adjust_loop]
    simp only [if_neg (not_lt.mpr hd)]
    have hst := iaf_state ((ops.fitness d.individual).getD 0) b age lbf conf
    rw [hst]
    rw [adjust_loop_eq ops b conf n rest (wm_step (age, lbf) ((ops.fitness d.individual).getD 0)).1
      (wm_step (age, lbf) ((ops.fitness d.individual).getD 0)).2 hrest]
    have : fit_list ops (d :: rest) =
        ((ops.fitness d.individual).getD 0) :: fit_list ops rest := rfl
    rw [this, wm_state_cons]
    rfl

/-- `compute_adjust_fitness` in closed form. -/
theorem compute_adjust_fitness_eq {I : Type} (ops : IndividualOps I) (s : Species I)
    (b : Bool) (conf : Conf) (hne : s.individuals ≠ [])
    (h : ∀ f ∈ fit_list ops s.individuals, 0 ≤ f) :
    Species.compute_adjust_fitness ops s b conf =
      some { s with
        individuals :=
          adj_map ops b conf s.individuals.length (s.age, s.last_best_fitness) s.individuals
        age := (wm_state (s.age, s.last_best_fitness) (fit_list ops s.individuals)).1
        last_best_fitness :=
          (wm_state (s.age, s.last_best_fitness) (fit_list ops s.individuals)).2 } := by
  unfold Species.compute_adjust_fitness
  rw [if_neg (by simpa [List.isEmpty_iff] using hne)]
  rw [adjust_loop_eq ops b conf s.individuals.length s.individuals s.age s.last_best_fitness h]

/-- A successful loop implies no member had a negative raw fitness. -/
theorem adjust_loop_some_nonneg {I : Type} (ops : IndividualOps I) (b : Bool) (conf : Conf)
    (n : Nat) :
    ∀ (l : List (Indiv I)) (age : Age) (lbf : ℚ) (r : List (Indiv I) × Age × ℚ),
      Species.adjust_loop ops b conf n l age lbf = some r →
      ∀ f ∈ fit_list ops l, 0 ≤ f
  | [], _, _, _, _ => by simp [fit_list]
  | d :: rest, age, lbf, r, h => by
    rw [Species.adjust_loop] at h
    by_cases hd : (ops.fitness d.individual).getD 0 < 0
    · simp [hd] at h
    · simp only [hd, if_false] at h
      intro f hf
      rcases (by simpa [fit_list] using hf :
          f = (ops.fitness d.individual).getD 0 ∨ f ∈ fit_list ops rest) with hf | hf
      · subst hf; exact not_lt.mp hd
      · match hr : Species.adjust_loop ops b conf n rest
            (Species.individual_adjusted_fitness ((ops.fitness d.individual).getD 0) b age lbf
              conf).2.1
            (Species.individual_adjusted_fitness ((ops.fitness d.individual).getD 0) b age lbf
              conf).2.2 with
        | none => rw [hr] at h; simp at h
        | some r' => exact adjust_loop_some_nonneg ops b conf n rest _ _ r' hr f hf

/-- A successful `compute_adjust_fitness` implies a non-empty member list with
no negative raw fitness. -/
theorem compute_some_facts {I : Type} (ops : IndividualOps I) (s s' : Species I)
    (b : Bool) (conf : Conf) (h : Species.compute_adjust_fitness ops s b conf = some s') :
    s.individuals ≠ [] ∧ ∀ f ∈ fit_list ops s.individuals, 0 ≤ f := by
  unfold Species.compute_adjust_fitness at h
  by_cases hne : s.individuals.isEmpty
  · simp [hne] at h
  · refine ⟨by simpa [List.isEmpty_iff] using hne, ?_⟩
    rw [if_neg hne] at h
    match hr : Species.adjust_loop ops b conf s.individuals.length s.individuals s.age
        s.last_best_fitness with
    | none => rw [hr] at h; simp at h
    | some r => exact adjust_loop_some_nonneg ops b conf _ _ _ _ r hr


/-!
Properties of `adj_map` and the watermark state.
-/

theorem wm_step_eq (st : Age × ℚ) (f : ℚ) :
    wm_step st f =
      if st.2 ≤ (if f = 0 then (0.0001 : ℚ) else f) then
        (st.1.reset_no_improvements, (if f = 0 then (0.0001 : ℚ) else f))
      else st := rfl

theorem age_reset_eq_self (a : Age) (h : a.no_improvements = 0) :
    a.reset_no_improvements = a := by
  cases a
  simp_all [Age.reset_no_improvements]

theorem adj_map_length {I : Type} (ops : IndividualOps I) (b : Bool) (conf : Conf) (n : Nat) :
    ∀ (st : Age × ℚ) (l : List (Indiv I)), (adj_map ops b conf n st l).length = l.length
  | _, [] => rfl
  | st, d :: rest => by
    rw [adj_map]
    simp [adj_map_length ops b conf n _ rest]

theorem adj_map_fit_list {I : Type} (ops : IndividualOps I) (b : Bool) (conf : Conf) (n : Nat) :
    ∀ (st : Age × ℚ) (l : List (Indiv I)),
      fit_list ops (adj_map ops b conf n st l) = fit_list ops l
  | _, [] => rfl
  | st, d :: rest => by
    rw [adj_map]
    show _ :: fit_list ops (adj_map ops b conf n _ rest) = _
    rw [adj_map_fit_list ops b conf n _ rest]
    rfl

theorem adj_map_idem {I : Type} (ops : IndividualOps I) (b : Bool) (conf : Conf) (n : Nat) :
    ∀ (st : Age × ℚ) (l : List (Indiv I)),
      adj_map ops b conf n st (adj_map ops b conf n st l) = adj_map ops b conf n st l
  | _, [] => rfl
  | st, d :: rest => by
    rw [adj_map, adj_map]
    rw [adj_map_idem ops b conf n _ rest]

theorem adj_map_getElem {I : Type} (ops : IndividualOps I) (b : Bool) (conf : Conf) (n : Nat) :
    ∀ (l : List (Indiv I)) (st : Age × ℚ) (i : Nat) (d : Indiv I), l[i]? = some d →
      (adj_map ops b conf n st l)[i]? = some
        ⟨d.individual, some
          ((Species.individual_adjusted_fitness ((ops.fitness d.individual).getD 0) b
            (wm_state st ((fit_list ops l).take i)).1
            (wm_state st ((fit_list ops l).take i)).2 conf).1 / (n : ℚ))⟩
  | [], _, i, d => by simp
  | e :: rest, st, 0, d => by
    intro h
    simp only [List.getElem?_cons_zero, Option.some.injEq] at h
    subst h
    simp [adj_map, fit_list, wm_state]
  | e :: rest, st, i + 1, d => by
    intro h
    simp only [List.getElem?_cons_succ] at h
    rw [adj_map]
    simp only [List.getElem?_cons_succ]
    rw [adj_map_getElem ops b conf n rest _ i d h]
    have hstep : (fit_list ops (e :: rest)).take (i + 1) =
        ((ops.fitness e.individual).getD 0) :: (fit_list ops rest).take i := rfl
    rw [hstep, wm_state_cons]

/-- The watermark only grows. -/
theorem wm_state_lb_le : ∀ (fs : List ℚ) (st : Age × ℚ), st.2 ≤ (wm_state st fs).2
  | [], _ => le_rfl
  | f :: fs, st => by
    rw [wm_state_cons]
    refine le_trans ?_ (wm_state_lb_le fs _)
    rw [wm_step_eq]
    by_cases h : st.2 ≤ (if f = 0 then (0.0001 : ℚ) else f)
    · rw [if_pos h]; exact h
    · rw [if_neg h]

/-- The final watermark dominates every epsilon-substituted fitness. -/
theorem wm_state_lb_ge : ∀ (fs : List ℚ) (st : Age × ℚ),
    ∀ f ∈ fs, (if f = 0 then (0.0001 : ℚ) else f) ≤ (wm_state st fs).2
  | [], _ => by simp
  | g :: fs, st => by
    intro f hf
    rcases List.mem_cons.mp hf with hf | hf
    · subst hf
      rw [wm_state_cons]
      refine le_trans ?_ (wm_state_lb_le fs _)
      rw [wm_step_eq]
      by_cases h : st.2 ≤ (if f = 0 then (0.0001 : ℚ) else f)
      · rw [if_pos h]
      · rw [if_neg h]; exact le_of_lt (not_le.mp h)
    · rw [wm_state_cons]
      exact wm_state_lb_ge fs _ f hf

/-- A surviving non-zero no-improvement streak means the watermark pass never
fired: the state is unchanged and every member stayed strictly below it. -/
theorem wm_state_ni_ne : ∀ (fs : List ℚ) (st : Age × ℚ),
    (wm_state st fs).1.no_improvements ≠ 0 →
    wm_state st fs = st ∧ ∀ f ∈ fs, (if f = 0 then (0.0001 : ℚ) else f) < st.2
  | [], st => fun _ => ⟨rfl, by simp⟩
  | f :: fs, st => by
    intro h
    rw [wm_state_cons] at h ⊢
    obtain ⟨heq, hbelow⟩ := wm_state_ni_ne fs _ h
    rw [heq] at h
    by_cases hc : st.2 ≤ (if f = 0 then (0.0001 : ℚ) else f)
    · exfalso
      apply h
      rw [wm_step_eq, if_pos hc]
      rfl
    · have hstep : wm_step st f = st := by rw [wm_step_eq, if_neg hc]
      rw [hstep] at hbelow
      refine ⟨heq.trans hstep, ?_⟩
      intro g hg
      rcases List.mem_cons.mp hg with hg | hg
      · subst hg; exact not_le.mp hc
      · exact hbelow g hg

/-- Running the watermark pass a second time over the same fitness list does
not move the state: the state after one pass is a fixed point. -/
theorem wm_state_fixed : ∀ (fs : List ℚ) (st : Age × ℚ),
    wm_state (wm_state st fs) fs = wm_state st fs
  | [], _ => rfl
  | f :: fs, st => by
    rw [wm_state_cons, wm_state_cons]
    by_cases hτ : (wm_state (wm_step st f) fs).2 ≤ (if f = 0 then (0.0001 : ℚ) else f)
    · have hg_le : (if f = 0 then (0.0001 : ℚ) else f) ≤ (wm_step st f).2 := by
        rw [wm_step_eq]
        by_cases h : st.2 ≤ (if f = 0 then (0.0001 : ℚ) else f)
        · rw [if_pos h]
        · rw [if_neg h]; exact le_of_lt (not_le.mp h)
      have heq : (wm_state (wm_step st f) fs).2 = (if f = 0 then (0.0001 : ℚ) else f) :=
        le_antisymm hτ (le_trans hg_le (wm_state_lb_le fs _))
      by_cases hni : (wm_state (wm_step st f) fs).1.no_improvements = 0
      · have hstep : wm_step (wm_state (wm_step st f) fs) f = wm_state (wm_step st f) fs := by
          rw [wm_step_eq, if_pos (heq ▸ le_rfl), age_reset_eq_self _ hni, ← heq]
        rw [hstep]
        exact wm_state_fixed fs _
      · exfalso
        obtain ⟨heqst, -⟩ := wm_state_ni_ne fs _ hni
        by_cases hc : st.2 ≤ (if f = 0 then (0.0001 : ℚ) else f)
        · apply hni
          rw [heqst, wm_step_eq, if_pos hc]
          rfl
        · have hstep : wm_step st f = st := by rw [wm_step_eq, if_neg hc]
          rw [heqst, hstep] at hτ
          exact hc hτ
    · have hstep : wm_step (wm_state (wm_step st f) fs) f = wm_state (wm_step st f) fs := by
        rw [wm_step_eq, if_neg hτ]
      rw [hstep]
      exact wm_state_fixed fs _

/-!
Claim C10.
-/

theorem fit_list_congr {I : Type} (ops ops' : IndividualOps I)
    (h : ∀ x, (ops'.fitness x).getD 0 = (ops.fitness x).getD 0) :
    ∀ l : List (Indiv I), fit_list ops' l = fit_list ops l
  | [] => rfl
  | d :: rest => by
    have hrest := fit_list_congr ops ops' h rest
    simp only [fit_list, List.map_cons] at hrest ⊢
    rw [h d.individual, hrest]

theorem adj_map_congr {I : Type} (ops ops' : IndividualOps I) (b : Bool) (conf : Conf)
    (n : Nat) (h : ∀ x, (ops'.fitness x).getD 0 = (ops.fitness x).getD 0) :
    ∀ (st : Age × ℚ) (l : List (Indiv I)),
      adj_map ops' b conf n st l = adj_map ops b conf n st l
  | _, [] => rfl
  | st, d :: rest => by
    rw [adj_map, adj_map, h d.individual, adj_map_congr ops ops' b conf n h _ rest]

/-- Claim C10: a member whose `fitness()` is `None` does not make
`compute_adjust_fitness` fail — the absent fitness is read as zero
(`unwrap_or(zero)`), so the pass behaves exactly as if that member had raw
fitness zero (and the zero then receives the 1e-4 epsilon); under the usual
non-negativity of the remaining fitnesses the pass succeeds. -/
theorem c10_confirmed {I : Type} (ops ops' : IndividualOps I) (s : Species I) (b : Bool)
    (conf : Conf)
    (hsame : ∀ x, ops'.fitness x = ops.fitness x ∨
      (ops.fitness x = none ∧ ops'.fitness x = some 0))
    (hne : s.individuals ≠ [])
    (hnn : ∀ f ∈ fit_list ops s.individuals, 0 ≤ f) :
    Species.compute_adjust_fitness ops s b conf = Species.compute_adjust_fitness ops' s b conf ∧
    (Species.compute_adjust_fitness ops s b conf).isSome := by
  have hgd : ∀ x, (ops'.fitness x).getD 0 = (ops.fitness x).getD 0 := by
    intro x
    rcases hsame x with h | ⟨h1, h2⟩
    · rw [h]
    · rw [h1, h2]; rfl
  have hnn' : ∀ f ∈ fit_list ops' s.individuals, 0 ≤ f := by
    rw [fit_list_congr ops ops' hgd]; exact hnn
  rw [compute_adjust_fitness_eq ops s b conf hne hnn,
    compute_adjust_fitness_eq ops' s b conf hne hnn']
  rw [fit_list_congr ops ops' hgd, adj_map_congr ops ops' b conf _ hgd]
  exact ⟨rfl, rfl⟩

/-- Claim C10 witness: a lone member with `fitness() = None` against the same
member with raw fitness zero. -/
theorem c10_witness :
    Species.compute_adjust_fitness opsNone spC10 false confBig =
      Species.compute_adjust_fitness opsZero spC10 false confBig ∧
    (Species.compute_adjust_fitness opsNone spC10 false confBig).isSome :=
  c10_confirmed opsNone opsZero spC10 false confBig (fun _ => Or.inr ⟨rfl, rfl⟩)
    (by simp [spC10])
    (by
      intro f hf
      simp [fit_list, spC10, opsNone, natOps] at hf
      simp [hf])

/-!
Claim C3.
-/

/-- Claim C3, counterexample: a non-best species with `no_improvements = 401`
above `species_max_stagnation = 400` whose member nevertheless does NOT
receive the 1e-7 penalty: the member's fitness (5) reaches the watermark (0),
so the streak is reset to 0 before the stagnation test.  The claim as stated
predicts an adjusted fitness of `5 * 1e-7`; the code produces 5. -/
theorem c3_counterexample :
    Species.compute_adjust_fitness opsC3 spC3x false confBig =
      some ⟨[⟨7, some 5⟩], 3, ⟨10, 0, 0⟩, 5⟩ ∧
    ¬(5 : ℚ) = 5 * (0.0000001 : ℚ) ∧
    confBig.species_max_stagnation < spC3x.age.no_improvements := by
  refine ⟨?_, by norm_num, by decide⟩
  norm_num [Species.compute_adjust_fitness, Species.adjust_loop,
    Species.individual_adjusted_fitness, Age.reset_no_improvements, spC3x, opsC3, natOps,
    confBig]

/-- Claim C3, amended: each member's adjusted fitness equals the raw fitness
(with the 1e-4 epsilon substituted for an exact zero) times the young-age
boost (when `generations < young_age_threshold`), times the old-age penalty
(when `generations > old_age_threshold`), times 1e-7 when the species is not
the best one and its no-improvement streak — as it stands after the watermark
check for this member, which resets it to 0 whenever the member's
epsilon-substituted fitness reaches the running `last_best_fitness` — exceeds
`species_max_stagnation`, all divided by the species size. -/
theorem c3_amended {I : Type} (ops : IndividualOps I) (s s' : Species I) (b : Bool)
    (conf : Conf) (hsucc : Species.compute_adjust_fitness ops s b conf = some s')
    (i : Nat) (d : Indiv I) (hd : s.individuals[i]? = some d) :
    s'.individuals[i]? = some
      ⟨d.individual, some
        (claimed_adjusted_fitness ((ops.fitness d.individual).getD 0) b s.age.generations
          ((wm_step
              (wm_state (s.age, s.last_best_fitness) ((fit_list ops s.individuals).take i))
              ((ops.fitness d.individual).getD 0)).1.no_improvements)
          conf s.individuals.length)⟩ := by
  obtain ⟨hne, hnn⟩ := compute_some_facts ops s s' b conf hsucc
  rw [compute_adjust_fitness_eq ops s b conf hne hnn] at hsucc
  injection hsucc with hs'
  rw [← hs']
  show (adj_map ops b conf s.individuals.length (s.age, s.last_best_fitness)
    s.individuals)[i]? = _
  rw [adj_map_getElem ops b conf s.individuals.length s.individuals
    (s.age, s.last_best_fitness) i d hd]
  have hv := iaf_value ((ops.fitness d.individual).getD 0) b
    (wm_state (s.age, s.last_best_fitness) ((fit_list ops s.individuals).take i)).1
    (wm_state (s.age, s.last_best_fitness) ((fit_list ops s.individuals).take i)).2 conf
  rw [hv]
  have hgen := wm_state_generations ((fit_list ops s.individuals).take i)
    (s.age, s.last_best_fitness)
  rw [hgen]
  rfl

/-- Claim C3 witness: applying the amended theorem to a species whose
watermark (10) is above the member's fitness (5), so the stagnation streak 401
survives the watermark check and the 1e-7 penalty fires. -/
theorem c3_witness :
    (⟨[⟨7, some (1/2000000)⟩], 3, ⟨10, 0, 401⟩, 10⟩ : Species Nat).individuals[0]? = some
      ⟨(⟨7, none⟩ : Indiv Nat).individual, some
        (claimed_adjusted_fitness ((opsC3.fitness (⟨7, none⟩ : Indiv Nat).individual).getD 0)
          false spC3.age.generations
          ((wm_step
              (wm_state (spC3.age, spC3.last_best_fitness)
                ((fit_list opsC3 spC3.individuals).take 0))
              ((opsC3.fitness (⟨7, none⟩ : Indiv Nat).individual).getD 0)).1.no_improvements)
          confBig spC3.individuals.length)⟩ :=
  c3_amended opsC3 spC3 ⟨[⟨7, some (1/2000000)⟩], 3, ⟨10, 0, 401⟩, 10⟩ false confBig
    (by
      norm_num [Species.compute_adjust_fitness, Species.adjust_loop,
        Species.individual_adjusted_fitness, Age.reset_no_improvements, spC3, opsC3, natOps,
        confBig])
    0 ⟨7, none⟩ rfl

/-!
Claim C4.
-/

/-- A species already at a watermark/adjusted-fitness fixed point is left
exactly unchanged by `compute_adjust_fitness`. -/
theorem compute_adjust_fitness_stable {I : Type} (ops : IndividualOps I) (b : Bool)
    (conf : Conf) (s : Species I) (hne : s.individuals ≠ [])
    (hnn : ∀ f ∈ fit_list ops s.individuals, 0 ≤ f)
    (hfix_state : wm_state (s.age, s.last_best_fitness) (fit_list ops s.individuals) =
      (s.age, s.last_best_fitness))
    (hfix_ind : adj_map ops b conf s.individuals.length (s.age, s.last_best_fitness)
      s.individuals = s.individuals) :
    Species.compute_adjust_fitness ops s b conf = some s := by
  rw [compute_adjust_fitness_eq ops s b conf hne hnn, hfix_ind, hfix_state]

/-- Claim C4, amended: `compute_adjust_fitness` stabilizes after one call —
the state a call leaves behind is a fixed point, so from the second call
onward every further call (same flag, same configuration, unchanged raw
fitnesses) reproduces the species, adjusted fitnesses included, exactly.  (The
first and second call may differ, see the counterexample.) -/
theorem c4_amended {I : Type} (ops : IndividualOps I) (s s' s'' : Species I) (b : Bool)
    (conf : Conf) (h1 : Species.compute_adjust_fitness ops s b conf = some s')
    (h2 : Species.compute_adjust_fitness ops s' b conf = some s'') :
    Species.compute_adjust_fitness ops s'' b conf = some s'' := by
  obtain ⟨hne, hnn⟩ := compute_some_facts ops s s' b conf h1
  rw [compute_adjust_fitness_eq ops s b conf hne hnn] at h1
  injection h1 with h1
  obtain ⟨hne', hnn'⟩ := compute_some_facts ops s' s'' b conf h2
  rw [compute_adjust_fitness_eq ops s' b conf hne' hnn'] at h2
  injection h2 with h2
  -- unpack the literal shape of `s'`
  have hind' : s'.individuals =
      adj_map ops b conf s.individuals.length (s.age, s.last_best_fitness) s.individuals := by
    rw [← h1]
  have hage' : (s'.age, s'.last_best_fitness) =
      wm_state (s.age, s.last_best_fitness) (fit_list ops s.individuals) := by
    rw [← h1]
  have hfits' : fit_list ops s'.individuals = fit_list ops s.individuals := by
    rw [hind', adj_map_fit_list]
  have hlen' : s'.individuals.length = s.individuals.length := by
    rw [hind', adj_map_length]
  -- the state of `s'` is a fixed point of the watermark pass
  have hWfix : wm_state (s'.age, s'.last_best_fitness) (fit_list ops s'.individuals) =
      (s'.age, s'.last_best_fitness) := by
    rw [hfits', hage']
    exact wm_state_fixed (fit_list ops s.individuals) (s.age, s.last_best_fitness)
  -- unpack the literal shape of `s''`
  have hind'' : s''.individuals =
      adj_map ops b conf s'.individuals.length (s'.age, s'.last_best_fitness)
        s'.individuals := by
    rw [← h2]
  have hage'' : (s''.age, s''.last_best_fitness) = (s'.age, s'.last_best_fitness) := by
    rw [← h2]
    show wm_state (s'.age, s'.last_best_fitness) (fit_list ops s'.individuals) = _
    exact hWfix
  have hfits'' : fit_list ops s''.individuals = fit_list ops s'.individuals := by
    rw [hind'', adj_map_fit_list]
  have hlen'' : s''.individuals.length = s'.individuals.length := by
    rw [hind'', adj_map_length]
  have hne'' : s''.individuals ≠ [] := by
    intro hcon
    rw [hcon] at hlen''
    exact hne' (List.eq_nil_of_length_eq_zero hlen''.symm)
  have hnn'' : ∀ f ∈ fit_list ops s''.individuals, 0 ≤ f := by
    rw [hfits'']; exact hnn'
  -- the second call's output is itself a fixed point
  apply compute_adjust_fitness_stable ops b conf s'' hne'' hnn''
  · rw [hfits'', hage'']
    exact hWfix
  · rw [hlen'', hage'', hind'']
    exact adj_map_idem ops b conf s'.individuals.length (s'.age, s'.last_best_fitness)
      s'.individuals

/-- Claim C4, counterexample: with unchanged raw fitnesses [3, 5], the same
flag and the same configuration, the first call assigns member 0 the adjusted
fitness `3e-7 / 2` (stagnation penalty: streak 401 > 400), but — because the
first call raised the watermark to 5 and reset the streak — the second call
assigns member 0 `3 / 2`.  The calls do not produce identical values. -/
theorem c4_counterexample :
    Species.compute_adjust_fitness opsC4 spC4 false confBig = some spC4' ∧
    Species.compute_adjust_fitness opsC4 spC4' false confBig = some spC4'' ∧
    spC4'.individuals ≠ spC4''.individuals := by
  refine ⟨?_, ?_, ?_⟩
  · norm_num [Species.compute_adjust_fitness, Species.adjust_loop,
      Species.individual_adjusted_fitness, Age.reset_no_improvements, spC4, spC4', opsC4,
      natOps, confBig]
  · norm_num [Species.compute_adjust_fitness, Species.adjust_loop,
      Species.individual_adjusted_fitness, Age.reset_no_improvements, spC4', spC4'', opsC4,
      natOps, confBig]
  · norm_num [spC4', spC4'']

/-- Claim C4 witness: the amended theorem applied to the counterexample
species — after the second call, a third call reproduces its input exactly. -/
theorem c4_witness :
    Species.compute_adjust_fitness opsC4 spC4'' false confBig = some spC4'' :=
  c4_amended opsC4 spC4 spC4' spC4'' false confBig
    (by
      norm_num [Species.compute_adjust_fitness, Species.adjust_loop,
        Species.individual_adjusted_fitness, Age.reset_no_improvements, spC4, spC4', opsC4,
        natOps, confBig])
    (by
      norm_num [Species.compute_adjust_fitness, Species.adjust_loop,
        Species.individual_adjusted_fitness, Age.reset_no_improvements, spC4', spC4'', opsC4,
        natOps, confBig])


/-!
Claim C8.
-/

theorem update_cache_collection {I : Type} (ops : IndividualOps I) (c : SpeciesCollection I) :
    (SpeciesCollection.update_cache ops c).collection = c.collection := rfl

theorem get_best_collection {I : Type} (ops : IndividualOps I) (c : SpeciesCollection I)
    (b' : Option Nat) (c' : SpeciesCollection I)
    (h : SpeciesCollection.get_best ops c = .ok (b', c')) : c'.collection = c.collection := by
  unfold SpeciesCollection.get_best at h
  by_cases he : c.collection.isEmpty
  · rw [if_pos he] at h
    exact absurd h (by simp)
  · rw [if_neg he] at h
    by_cases hd : c.cache_need_updating
    · simp [hd] at h
      obtain ⟨h1, h2⟩ := h
      subst h2
      rfl
    · simp [hd] at h
      obtain ⟨h1, h2⟩ := h
      subst h2
      rfl

theorem correct_population_size_collection {I : Type} (ops : IndividualOps I)
    (c : SpeciesCollection I) (amounts : List Nat) (missing : Int) (r : RRes (List Nat))
    (c' : SpeciesCollection I)
    (h : Genus.correct_population_size ops c amounts missing = (r, c')) :
    c'.collection = c.collection := by
  unfold Genus.correct_population_size at h
  repeat' split at h
  all_goals injection h with h1 h2
  all_goals rw [← h2]
  all_goals exact get_best_collection ops c _ _ (by assumption)

theorem count_offsprings_collection {I : Type} (ops : IndividualOps I)
    (c : SpeciesCollection I) (n : Nat) (r : RRes (List Nat)) (c' : SpeciesCollection I)
    (h : Genus.count_offsprings ops c n = (r, c')) : c'.collection = c.collection := by
  unfold Genus.count_offsprings at h
  dsimp only [] at h
  repeat' split at h
  all_goals injection h with h1 h2
  all_goals rw [← h2]
  all_goals exact correct_population_size_collection ops c _ _ _ _ (by assumption)

/-- Claim C8, amended: `generate_new_individuals` is not read-only on the old
Genus — it finishes by DRAINING every old species' individuals into the seed's
`old_species_individuals` snapshot, leaving the old Genus with the same
species (ids, ages, watermarks) but empty member lists; the species-id counter
is unchanged, and `next_generation` then builds the next Genus as a fresh
value from the seed. -/
theorem c8_amended {I : Type} (ops : IndividualOps I) (g : Genus I) (conf : Conf)
    (selection : List I → I) (parent_selection : List I → I × I)
    (reproduce_individual_1 : I → I) (crossover_individual_2 : I → I → I)
    (mutate_individual : I → I) (seed : GenusSeed I) (g' : Genus I)
    (h : Genus.generate_new_individuals ops g conf selection parent_selection
      reproduce_individual_1 crossover_individual_2 mutate_individual = .ok (seed, g')) :
    g'.next_species_id = g.next_species_id ∧
    seed.old_species_individuals =
      g.species_collection.collection.map (fun sp => sp.individuals.map (·.individual)) ∧
    g'.species_collection.collection =
      g.species_collection.collection.map (fun sp => { sp with individuals := [] }) := by
  unfold Genus.generate_new_individuals at h
  split at h
  · rename_i offspring_amounts c1 hco
    have hc1 : c1.collection = g.species_collection.collection :=
      count_offsprings_collection ops g.species_collection conf.total_population_size
        (.ok offspring_amounts) c1 hco
    split at h
    · rename_i trip ncoll orphans nev hgp
      injection h with h
      injection h with hseed hg'
      subst hseed
      subst hg'
      refine ⟨rfl, ?_, ?_⟩
      · show c1.collection.map _ = _
        rw [hc1]
        rfl
      · show c1.collection.map _ = _
        rw [hc1]
        rfl
    · exact absurd h (by simp)
    · exact absurd h (by simp)
  · exact absurd h (by simp)
  · exact absurd h (by simp)

/-- Claim C8, counterexample: after `generate_new_individuals` returns, the
old Genus (the mutated `self`, second component of the result) has its lone
species emptied — its two individuals were drained into the seed's
`old_species_individuals` — so the old Genus's species do NOT contain the same
individuals as before the call. -/
theorem c8_counterexample :
    Genus.generate_new_individuals opsC1 genusC1 conf2 selHead pselHead id
        (fun a _ => a) id =
      .ok (⟨[], [⟨[0], 1, Age.new, 0⟩], [0], [[0, 1]]⟩,
        ⟨2, ⟨[⟨[], 1, Age.new, 0⟩], none, true⟩⟩) ∧
    (⟨2, ⟨[⟨[], 1, Age.new, 0⟩], none, true⟩⟩ :
        Genus Nat).species_collection.collection.map (·.individuals) = [[]] ∧
    genusC1.species_collection.collection.map (·.individuals) =
      [[⟨0, some (1/2)⟩, ⟨1, some (1/2)⟩]] := by
  refine ⟨?_, rfl, rfl⟩
  norm_num [Genus.generate_new_individuals, Genus.count_offsprings,
    Genus.calculate_average_fitness, Genus.total_and_count,
    Genus.calculate_population_size, Genus.gen_pass, Genus.nested_children, Genus.gen_many,
    Genus.generate_new_individual, Species.accumulated_adjusted_fitness, Species.sum_adjusted,
    Species.len, Species.is_compatible, Species.representative,
    Species.clone_with_new_individuals, Species.drain_individuals, List.range_succ,
    genusC1, spC1, opsC1, natOps, conf2, selHead, pselHead]
  decide

/-- Claim C8 witness: the amended theorem applied to the concrete run. -/
theorem c8_witness :
    (⟨2, ⟨[⟨[], 1, Age.new, 0⟩], none, true⟩⟩ : Genus Nat).next_species_id =
      genusC1.next_species_id ∧
    (⟨[], [⟨[0], 1, Age.new, 0⟩], [0], [[0, 1]]⟩ : GenusSeed Nat).old_species_individuals =
      genusC1.species_collection.collection.map (fun sp => sp.individuals.map (·.individual)) ∧
    (⟨2, ⟨[⟨[], 1, Age.new, 0⟩], none, true⟩⟩ :
        Genus Nat).species_collection.collection =
      genusC1.species_collection.collection.map (fun sp => { sp with individuals := [] }) :=
  c8_amended opsC1 genusC1 conf2 selHead pselHead id (fun a _ => a) id
    ⟨[], [⟨[0], 1, Age.new, 0⟩], [0], [[0, 1]]⟩
    ⟨2, ⟨[⟨[], 1, Age.new, 0⟩], none, true⟩⟩
    (by
      norm_num [Genus.generate_new_individuals, Genus.count_offsprings,
        Genus.calculate_average_fitness, Genus.total_and_count,
        Genus.calculate_population_size, Genus.gen_pass, Genus.nested_children,
        Genus.gen_many, Genus.generate_new_individual, Species.accumulated_adjusted_fitness,
        Species.sum_adjusted, Species.len, Species.is_compatible, Species.representative,
        Species.clone_with_new_individuals, Species.drain_individuals, List.range_succ,
        genusC1, spC1, opsC1, natOps, conf2, selHead, pselHead]
      decide)

/-!
Claim C1.
-/

/-- Claim C1: a species with an allotted quota of 2 produces only ONE new
individual (and registers only that one for evaluation): the nested loops
`for n_offspring in 0..q { for _ in 0..n_offspring { .. } }` of
`generate_new_individuals` run the body `0 + 1 + ... + (q-1) = q(q-1)/2`
times instead of `q` times.  Here `count_offsprings` allots `[2]`, yet
`need_evaluation` has length 1. -/
theorem c1_generated_count :
    (Genus.count_offsprings opsC1 genusC1.species_collection 2).1 = .ok [2] ∧
    Genus.generate_new_individuals opsC1 genusC1 conf2 selHead pselHead id
        (fun a _ => a) id =
      .ok (⟨[], [⟨[0], 1, Age.new, 0⟩], [0], [[0, 1]]⟩,
        ⟨2, ⟨[⟨[], 1, Age.new, 0⟩], none, true⟩⟩) ∧
    (⟨[], [⟨[0], 1, Age.new, 0⟩], [0], [[0, 1]]⟩ :
        GenusSeed Nat).need_evaluation.length = 1 ∧
    conf2.total_population_size = 2 := by
  refine ⟨?_, ?_, rfl, rfl⟩
  · have h : Genus.count_offsprings opsC1 genusC1.species_collection 2 =
        (.ok [2], genusC1.species_collection) := by
      norm_num [Genus.count_offsprings, Genus.calculate_average_fitness, Genus.total_and_count,
        Genus.calculate_population_size, Species.accumulated_adjusted_fitness,
        Species.sum_adjusted, Species.len, genusC1, spC1, opsC1, natOps]
      decide
    rw [h]
  · norm_num [Genus.generate_new_individuals, Genus.count_offsprings,
      Genus.calculate_average_fitness, Genus.total_and_count,
      Genus.calculate_population_size, Genus.gen_pass, Genus.nested_children, Genus.gen_many,
      Genus.generate_new_individual, Species.accumulated_adjusted_fitness,
      Species.sum_adjusted, Species.len, Species.is_compatible, Species.representative,
      Species.clone_with_new_individuals, Species.drain_individuals, List.range_succ,
      genusC1, spC1, opsC1, natOps, conf2, selHead, pselHead]
    decide

/-!
Claim C2: helper lemmas.
-/

theorem sum_adjusted_some {I : Type} :
    ∀ l : List (Indiv I),
      (∀ d ∈ l, ∃ a, d.adjusted_fitness = some a ∧ 0 ≤ a) →
      ∃ t, Species.sum_adjusted l = some t ∧ 0 ≤ t
  | [], _ => ⟨0, rfl, le_rfl⟩
  | d :: rest, h => by
    obtain ⟨a, ha, ha0⟩ := h d (by simp)
    obtain ⟨t, ht, ht0⟩ := sum_adjusted_some rest (fun e he => h e (by simp [he]))
    refine ⟨a + t, ?_, by positivity⟩
    rw [Species.sum_adjusted, ha, ht]

theorem sum_adjusted_nil {I : Type} : Species.sum_adjusted ([] : List (Indiv I)) = some 0 := rfl

/-- Nat-list sum after `set`. -/
theorem sum_set_nat : ∀ (l : List Nat) (i : Nat) (v cur : Nat), l[i]? = some cur →
    (l.set i v).sum + cur = l.sum + v
  | [], i, _, _ => by simp
  | a :: rest, 0, v, cur => by
    intro h
    simp only [List.getElem?_cons_zero, Option.some.injEq] at h
    subst h
    simp [List.set]
    omega
  | a :: rest, i + 1, v, cur => by
    intro h
    simp only [List.getElem?_cons_succ] at h
    have := sum_set_nat rest i v cur h
    simp [List.set]
    omega

theorem getElem?_le_sum_nat : ∀ (l : List Nat) (i cur : Nat), l[i]? = some cur → cur ≤ l.sum
  | [], _, _ => by simp
  | a :: rest, 0, cur => by
    intro h
    simp only [List.getElem?_cons_zero, Option.some.injEq] at h
    subst h
    simp [List.sum_cons]
  | a :: rest, i + 1, cur => by
    intro h
    simp only [List.getElem?_cons_succ] at h
    have := getElem?_le_sum_nat rest i cur h
    simp [List.sum_cons]
    omega

/-- A positive Nat-list sum has a positive entry. -/
theorem exists_pos_of_sum_pos : ∀ l : List Nat, 0 < l.sum →
    ∃ (i cur : Nat), l[i]? = some cur ∧ 0 < cur
  | [], h => by simp at h
  | a :: rest, h => by
    by_cases ha : 0 < a
    · exact ⟨0, a, by simp, ha⟩
    · have ha0 : a = 0 := by omega
      have hrest : 0 < rest.sum := by
        simp [ha0] at h
        exact h
      obtain ⟨i, cur, hi, hcur⟩ := exists_pos_of_sum_pos rest hrest
      exact ⟨i + 1, cur, by simpa using hi, hcur⟩

/-- Excluding a present, not-yet-excluded id strictly shrinks the candidate
id list. -/
theorem filter_not_mem_cons_lt : ∀ (l : List Nat) (x : Nat) (excl : List Nat),
    x ∈ l → ¬x ∈ excl →
    (l.filter (fun y => ¬y ∈ x :: excl)).length < (l.filter (fun y => ¬y ∈ excl)).length
  | [], x, excl => by simp
  | a :: rest, x, excl => by
    intro hx hnx
    by_cases hax : a = x
    · subst hax
      have h1 : (List.filter (fun y => decide ¬y ∈ a :: excl) (a :: rest)).length =
          (List.filter (fun y => decide ¬y ∈ a :: excl) rest).length := by
        simp [List.filter]
      have h2 : (List.filter (fun y => decide ¬y ∈ excl) (a :: rest)).length =
          (List.filter (fun y => decide ¬y ∈ excl) rest).length + 1 := by
        simp [List.filter, hnx]
      have h3 : (List.filter (fun y => decide ¬y ∈ a :: excl) rest).length ≤
          (List.filter (fun y => decide ¬y ∈ excl) rest).length := by
        refine List.Sublist.length_le (List.monotone_filter_right rest ?_)
        intro y hy
        simp only [decide_eq_true_eq] at hy ⊢
        intro hc
        exact hy (by simp [hc])
      omega
    · have hx' : x ∈ rest := by
        rcases List.mem_cons.mp hx with h | h
        · exact absurd h.symm hax
        · exact h
      have ih := filter_not_mem_cons_lt rest x excl hx' hnx
      have hagree : (decide ¬a ∈ x :: excl) = (decide ¬a ∈ excl) := by
        apply decide_eq_decide.mpr
        constructor
        · intro h hc
          exact h (by simp [hc])
        · intro h hc
          rcases List.mem_cons.mp hc with hc | hc
          · exact hax hc
          · exact h hc
      simp only [List.filter_cons, hagree]
      cases hdec : (decide ¬a ∈ excl)
      · simpa using ih
      · simpa using ih

theorem toWB_lt_isSome {x y : Option ℚ} (h : toWB x < toWB y) : y.isSome := by
  cases y with
  | none => exact absurd h (not_lt_bot)
  | some b => rfl

theorem toWB_le_isSome {x y : Option ℚ} (hx : x.isSome) (h : toWB x ≤ toWB y) : y.isSome := by
  cases y with
  | none =>
    cases x with
    | none => simp at hx
    | some a => exact absurd h (by simp [toWB_some, toWB_none])
  | some b => rfl

theorem best_fold_fit_isSome {I : Type} (ops : IndividualOps I) :
    ∀ (l : List (Indiv I)) (a : I),
      ((ops.fitness a).isSome ∨ ∃ d ∈ l, (ops.fitness d.individual).isSome) →
      ∃ b, Species.best_fold ops (some a) l = some b ∧ (ops.fitness b).isSome
  | [], a => by
    intro h
    rcases h with h | ⟨d, hd, _⟩
    · exact ⟨a, rfl, h⟩
    · simp at hd
  | d :: rest, a => by
    intro h
    rw [Species.best_fold]
    by_cases hgt : opt_gt (ops.fitness a) (ops.fitness d.individual) = true
    · simp only [hgt, if_true]
      apply best_fold_fit_isSome ops rest a
      rcases h with h | ⟨e, he, hfe⟩
      · exact Or.inl h
      · rcases List.mem_cons.mp he with he | he
        · subst he
          exact Or.inl (toWB_lt_isSome (opt_gt_eq_true.mp hgt))
        · exact Or.inr ⟨e, he, hfe⟩
    · simp only [hgt, if_false]
      apply best_fold_fit_isSome ops rest d.individual
      rcases h with h | ⟨e, he, hfe⟩
      · refine Or.inl (toWB_le_isSome h ?_)
        exact not_lt.mp (by simpa [opt_gt_eq_true] using hgt)
      · rcases List.mem_cons.mp he with he | he
        · subst he
          exact Or.inl hfe
        · exact Or.inr ⟨e, he, hfe⟩

theorem get_best_fitness_isSome {I : Type} (ops : IndividualOps I) (sp : Species I)
    (h : ∃ d ∈ sp.individuals, (ops.fitness d.individual).isSome) :
    (Species.get_best_fitness ops sp).isSome := by
  obtain ⟨d, hd, hfd⟩ := h
  match hl : sp.individuals, hd with
  | e :: rest, hd =>
    have hdis : (ops.fitness e.individual).isSome ∨
        ∃ x ∈ rest, (ops.fitness x.individual).isSome := by
      rcases List.mem_cons.mp hd with hh | hh
      · subst hh; exact Or.inl hfd
      · exact Or.inr ⟨d, hh, hfd⟩
    obtain ⟨b, hb, hfb⟩ := best_fold_fit_isSome ops rest e.individual hdis
    have hget : Species.get_best_individual ops sp = some b := by
      rw [Species.get_best_individual, hl, Species.best_fold]
      exact hb
    rw [Species.get_best_fitness, hget]
    exact hfb

theorem cache_fold_isSome {I : Type} (ops : IndividualOps I) :
    ∀ (l : List (Nat × Species I)) (acc : Option (Nat × ℚ)),
      ((∃ p ∈ l, (Species.get_best_fitness ops p.2).isSome) ∨ acc.isSome) →
      (SpeciesCollection.cache_fold ops acc l).isSome
  | [], acc => by
    intro h
    rcases h with ⟨p, hp, _⟩ | h
    · simp at hp
    · simpa [SpeciesCollection.cache_fold] using h
  | (i, sp) :: rest, acc => by
    intro h
    rw [SpeciesCollection.cache_fold]
    match hf : Species.get_best_fitness ops sp with
    | none =>
      apply cache_fold_isSome ops rest acc
      rcases h with ⟨p, hp, hps⟩ | h
      · rcases List.mem_cons.mp hp with hp | hp
        · subst hp
          rw [hf] at hps
          simp at hps
        · exact Or.inl ⟨p, hp, hps⟩
      · exact Or.inr h
    | some f =>
      apply cache_fold_isSome ops rest
      apply Or.inr
      cases acc with
      | none => rfl
      | some jg =>
        match jg with
        | (j, g) => by_cases hgf : g > f <;> simp [hgf]

theorem cache_fold_bound {I : Type} (ops : IndividualOps I) :
    ∀ (l : List (Nat × Species I)) (acc : Option (Nat × ℚ)) (N : Nat),
      (∀ p ∈ l, p.1 < N) → (∀ j g, acc = some (j, g) → j < N) →
      ∀ jg, SpeciesCollection.cache_fold ops acc l = some jg → jg.1 < N
  | [], acc, N => by
    intro hl hacc jg h
    rw [SpeciesCollection.cache_fold] at h
    exact hacc jg.1 jg.2 (by rw [h])
  | (i, sp) :: rest, acc, N => by
    intro hl hacc jg h
    rw [SpeciesCollection.cache_fold] at h
    match hf : Species.get_best_fitness ops sp with
    | none =>
      rw [hf] at h
      exact cache_fold_bound ops rest acc N (fun p hp => hl p (by simp [hp])) hacc jg h
    | some f =>
      rw [hf] at h
      refine cache_fold_bound ops rest _ N (fun p hp => hl p (by simp [hp])) ?_ jg h
      intro j g
      cases acc with
      | none =>
        intro hjg
        simp only [Option.some.injEq, Prod.mk.injEq] at hjg
        rw [← hjg.1]
        exact hl (i, sp) (by simp)
      | some jg' =>
        match jg' with
        | (j', g') =>
          by_cases hgf : g' > f
          · simp only [hgf, if_true]
            intro hjg
            simp only [Option.some.injEq, Prod.mk.injEq] at hjg
            rw [← hjg.1]
            exact hacc j' g' rfl
          · simp only [hgf, if_false]
            intro hjg
            simp only [Option.some.injEq, Prod.mk.injEq] at hjg
            rw [← hjg.1]
            exact hl (i, sp) (by simp)

theorem enum_fst_lt {α : Type} (l : List α) (p : Nat × α) (h : p ∈ l.enum) :
    p.1 < l.length := by
  match p with
  | (i, x) =>
    have hx := List.mk_mem_enum_iff_getElem?.mp h
    obtain ⟨hlt, -⟩ := List.getElem?_eq_some_iff.mp hx
    exact hlt

/-- `get_best` succeeds with an in-range index on a non-empty collection, as
long as either the cache is dirty and some species has an evaluated fitness,
or a valid index is cached. -/
theorem get_best_ok {I : Type} (ops : IndividualOps I) (c : SpeciesCollection I)
    (hne : c.collection ≠ [])
    (hcache : c.cache_need_updating = true ∨
      ∃ i, c.best = some i ∧ i < c.collection.length)
    (hfit : ∃ sp ∈ c.collection, ∃ d ∈ sp.individuals, (ops.fitness d.individual).isSome) :
    ∃ i c', SpeciesCollection.get_best ops c = .ok (some i, c') ∧
      i < c.collection.length ∧ c'.collection = c.collection := by
  unfold SpeciesCollection.get_best
  rw [if_neg (by simpa [List.isEmpty_iff] using hne)]
  by_cases hd : c.cache_need_updating
  · simp only [hd, if_true]
    obtain ⟨sp, hsp, hspfit⟩ := hfit
    obtain ⟨k, hk⟩ := List.getElem?_of_mem hsp
    have hkenum : (k, sp) ∈ c.collection.enum := List.mk_mem_enum_iff_getElem?.mpr hk
    have hsome := cache_fold_isSome ops c.collection.enum none
      (Or.inl ⟨(k, sp), hkenum, get_best_fitness_isSome ops sp hspfit⟩)
    obtain ⟨jg, hjg⟩ := Option.isSome_iff_exists.mp hsome
    have hbound := cache_fold_bound ops c.collection.enum none c.collection.length
      (fun p hp => enum_fst_lt c.collection p hp) (by intro j g h; simp at h) jg hjg
    refine ⟨jg.1, SpeciesCollection.update_cache ops c, ?_, hbound, rfl⟩
    show RRes.ok ((SpeciesCollection.update_cache ops c).best, _) = _
    rw [SpeciesCollection.update_cache]
    simp only [hjg]
    rfl
  · have hd' : c.cache_need_updating = false := Bool.eq_false_iff.mpr hd
    rcases hcache with hcache | ⟨i, hbest, hlt⟩
    · exact absurd hcache hd
    · refine ⟨i, c, ?_, hlt, rfl⟩
      rw [if_neg (by simp [hd'])]
      show RRes.ok (c.best, c) = RRes.ok (some i, c)
      rw [hbest]

theorem worst_fold_mem {I : Type} (ops : IndividualOps I) :
    ∀ (l : List (Nat × Species I)) (acc : Option (Nat × Species I)) (r : Nat × Species I),
      l.foldl
        (fun acc p =>
          match acc with
          | none => some p
          | some q =>
            if opt_gt (Species.get_best_fitness ops q.2) (Species.get_best_fitness ops p.2) then
              some p
            else some q)
        acc = some r →
      acc = some r ∨ r ∈ l
  | [], acc, r => fun h => Or.inl (by simpa using h)
  | p :: rest, acc, r => by
    intro h
    rw [List.foldl_cons] at h
    rcases worst_fold_mem ops rest _ r h with hacc | hmem
    · cases acc with
      | none =>
        simp only [Option.some.injEq] at hacc
        exact Or.inr (by simp [← hacc])
      | some q =>
        by_cases hcmp : opt_gt (Species.get_best_fitness ops q.2)
            (Species.get_best_fitness ops p.2) = true
        · simp only [hcmp, if_true, Option.some.injEq] at hacc
          exact Or.inr (by simp [← hacc])
        · simp only [hcmp, if_false] at hacc
          exact Or.inl hacc
    · exact Or.inr (by simp [hmem])

theorem worst_fold_isSome {I : Type} (ops : IndividualOps I) :
    ∀ (l : List (Nat × Species I)) (acc : Option (Nat × Species I)),
      (acc.isSome ∨ l ≠ []) →
      (l.foldl
        (fun acc p =>
          match acc with
          | none => some p
          | some q =>
            if opt_gt (Species.get_best_fitness ops q.2) (Species.get_best_fitness ops p.2) then
              some p
            else some q)
        acc).isSome
  | [], acc => by
    intro h
    rcases h with h | h
    · simpa using h
    · simp at h
  | p :: rest, acc => by
    intro _
    rw [List.foldl_cons]
    apply worst_fold_isSome ops rest
    left
    cases acc with
    | none => rfl
    | some q =>
      by_cases hcmp : opt_gt (Species.get_best_fitness ops q.2)
          (Species.get_best_fitness ops p.2) = true <;> simp [hcmp]

theorem gw_spec {I : Type} (ops : IndividualOps I) (c : SpeciesCollection I)
    (excl : List Nat) (i : Nat) (sp : Species I)
    (h : SpeciesCollection.get_worst ops c 1 excl = some (i, sp)) :
    c.collection[i]? = some sp ∧ sp.individuals ≠ [] ∧ ¬sp.id ∈ excl := by
  unfold SpeciesCollection.get_worst at h
  rcases worst_fold_mem ops _ none (i, sp) h with habs | hmem
  · simp at habs
  · obtain ⟨henum, hpred⟩ := List.mem_filter.mp hmem
    have hget : c.collection[i]? = some sp := List.mk_mem_enum_iff_getElem?.mp henum
    simp only [decide_eq_true_eq] at hpred
    obtain ⟨hlen, hexcl⟩ := hpred
    refine ⟨hget, ?_, hexcl⟩
    intro hcon
    rw [Species.len, hcon] at hlen
    simp at hlen

theorem gw_isSome {I : Type} (ops : IndividualOps I) (c : SpeciesCollection I)
    (excl : List Nat)
    (hcand : ∃ p ∈ c.collection.enum, 1 ≤ p.2.len ∧ ¬p.2.id ∈ excl) :
    (SpeciesCollection.get_worst ops c 1 excl).isSome := by
  unfold SpeciesCollection.get_worst
  apply worst_fold_isSome
  right
  obtain ⟨p, hp, h1, h2⟩ := hcand
  intro hcon
  have hmem : p ∈ c.collection.enum.filter
      (fun p => 1 ≤ p.2.len ∧ ¬p.2.id ∈ excl) :=
    List.mem_filter.mpr ⟨hp, by simp [h1, h2]⟩
  rw [hcon] at hmem
  simp at hmem

theorem nodup_ids_index {I : Type} (l : List (Species I)) (hids : (l.map (·.id)).Nodup)
    (i j : Nat) (x y : Species I) (hx : l[i]? = some x) (hy : l[j]? = some y)
    (hxy : x.id = y.id) : i = j := by
  have hi : (l.map (·.id))[i]? = some x.id := by
    rw [List.getElem?_map, hx]
    rfl
  have hj : (l.map (·.id))[j]? = some y.id := by
    rw [List.getElem?_map, hy]
    rfl
  refine List.getElem?_inj ?_ hids ?_
  · obtain ⟨h, -⟩ := List.getElem?_eq_some_iff.mp hi
    exact h
  · rw [hi, hj, hxy]

theorem correct_loop_zero {I : Type} (ops : IndividualOps I) (c : SpeciesCollection I)
    (fuel : Nat) (quotas : List Nat) (excluded : List Nat) :
    Genus.correct_loop ops c (fuel + 1) quotas 0 excluded = .ok quotas := rfl

theorem correct_loop_succ {I : Type} (ops : IndividualOps I) (c : SpeciesCollection I)
    (fuel : Nat) (quotas : List Nat) (excess : Nat) (excluded : List Nat) :
    Genus.correct_loop ops c (fuel + 1) quotas (excess + 1) excluded =
      match SpeciesCollection.get_worst ops c 1 excluded with
      | none => .panic
      | some (worst_species_i, worst_species) =>
        match quotas[worst_species_i]? with
        | none => .panic
        | some current_amount =>
          if excess + 1 < current_amount then
            Genus.correct_loop ops c fuel
              (quotas.set worst_species_i (current_amount - (excess + 1)))
              0 (worst_species.id :: excluded)
          else
            Genus.correct_loop ops c fuel (quotas.set worst_species_i 0)
              ((excess + 1) - current_amount) (worst_species.id :: excluded) := rfl

/-- The draining loop of `correct_population_size` succeeds and lands exactly
on the target, given the loop invariants. -/
theorem correct_loop_ok {I : Type} (ops : IndividualOps I) (c : SpeciesCollection I)
    (target : Nat) (htarget : 0 < target)
    (hids : (c.collection.map (·.id)).Nodup) :
    ∀ (fuel : Nat) (quotas : List Nat) (excess : Nat) (excluded : List Nat),
      quotas.length = c.collection.length →
      quotas.sum = target + excess →
      (0 < excess → ∀ (k : Nat) (sp : Species I), c.collection[k]? = some sp →
        (sp.individuals = [] ∨ sp.id ∈ excluded) → quotas[k]? = some 0) →
      ((c.collection.map (·.id)).filter (fun x => ¬x ∈ excluded)).length < fuel →
      ∃ q', Genus.correct_loop ops c fuel quotas excess excluded = .ok q' ∧
        q'.sum = target ∧ q'.length = quotas.length
  | 0 => by
    intro quotas excess excluded _ _ _ hfuel
    exact absurd hfuel (Nat.not_lt_zero _)
  | fuel + 1 => by
    intro quotas excess excluded hlen hsum hinv hfuel
    match excess with
    | 0 =>
      rw [correct_loop_zero]
      exact ⟨quotas, rfl, by omega, rfl⟩
    | e + 1 =>
      have hpos : 0 < quotas.sum := by omega
      obtain ⟨j, cur, hj, hcur⟩ := exists_pos_of_sum_pos quotas hpos
      have hjlt : j < quotas.length := (List.getElem?_eq_some_iff.mp hj).1
      have hjc : j < c.collection.length := by omega
      have hspj : c.collection[j]? = some (c.collection.get ⟨j, hjc⟩) :=
        List.getElem?_eq_getElem hjc
      have hspj_cand : (c.collection.get ⟨j, hjc⟩).individuals ≠ [] ∧
          ¬(c.collection.get ⟨j, hjc⟩).id ∈ excluded := by
        by_contra hcon
        push_neg at hcon
        have hor : (c.collection.get ⟨j, hjc⟩).individuals = [] ∨
            (c.collection.get ⟨j, hjc⟩).id ∈ excluded := by
          by_cases hemp : (c.collection.get ⟨j, hjc⟩).individuals = []
          · exact Or.inl hemp
          · exact Or.inr (hcon hemp)
        have := hinv (by omega) j _ hspj hor
        rw [hj] at this
        injection this with this
        omega
      have hgw : (SpeciesCollection.get_worst ops c 1 excluded).isSome := by
        refine gw_isSome ops c excluded
          ⟨(j, c.collection.get ⟨j, hjc⟩), List.mk_mem_enum_iff_getElem?.mpr hspj, ?_, hspj_cand.2⟩
        show 1 ≤ (c.collection.get ⟨j, hjc⟩).individuals.length
        have := List.length_pos.mpr hspj_cand.1
        omega
      obtain ⟨iw, hiw⟩ := Option.isSome_iff_exists.mp hgw
      match iw, hiw with
      | (i, w), hiw =>
        obtain ⟨hgetw, hwne, hwexcl⟩ := gw_spec ops c excluded i w hiw
        have hilt : i < c.collection.length := (List.getElem?_eq_some_iff.mp hgetw).1
        have hiq : i < quotas.length := by omega
        have hcuri : quotas[i]? = some (quotas.get ⟨i, hiq⟩) := List.getElem?_eq_getElem hiq
        have hwid_mem : w.id ∈ c.collection.map (·.id) :=
          List.mem_map.mpr ⟨w, List.getElem?_mem hgetw, rfl⟩
        have hmeas := filter_not_mem_cons_lt (c.collection.map (·.id)) w.id excluded
          hwid_mem hwexcl
        rw [correct_loop_succ]
        simp only [hiw, hcuri]
        by_cases hbig : e + 1 < quotas.get ⟨i, hiq⟩
        · rw [if_pos hbig]
          have hstep := sum_set_nat quotas i (quotas.get ⟨i, hiq⟩ - (e + 1)) (quotas.get ⟨i, hiq⟩) hcuri
          obtain ⟨q', hq', hq'sum, hq'len⟩ :=
            correct_loop_ok ops c target htarget hids fuel
              (quotas.set i (quotas.get ⟨i, hiq⟩ - (e + 1))) 0 (w.id :: excluded)
              (by simp [hlen])
              (by omega)
              (fun h0 => absurd h0 (lt_irrefl 0))
              (by omega)
          exact ⟨q', hq', hq'sum, by simpa using hq'len⟩
        · rw [if_neg hbig]
          have hstep := sum_set_nat quotas i 0 (quotas.get ⟨i, hiq⟩) hcuri
          have hcurle : quotas.get ⟨i, hiq⟩ ≤ quotas.sum := getElem?_le_sum_nat quotas i _ hcuri
          obtain ⟨q', hq', hq'sum, hq'len⟩ :=
            correct_loop_ok ops c target htarget hids fuel
              (quotas.set i 0) ((e + 1) - (quotas.get ⟨i, hiq⟩)) (w.id :: excluded)
              (by simp [hlen])
              (by omega)
              (by
                intro h0 k sp hk hor
                by_cases hki : k = i
                · subst hki
                  exact List.getElem?_set_eq_of_lt 0 hiq
                · rw [List.getElem?_set_ne (fun hc => hki hc.symm)]
                  refine hinv (by omega) k sp hk ?_
                  rcases hor with hor | hor
                  · exact Or.inl hor
                  · rcases List.mem_cons.mp hor with hor | hor
                    · exfalso
                      exact hki (nodup_ids_index c.collection hids k i sp w hk hgetw hor)
                    · exact Or.inr hor)
              (by omega)
          exact ⟨q', hq', hq'sum, by simpa using hq'len⟩

theorem accumulated_facts {I : Type} (sp : Species I)
    (h : ∀ d ∈ sp.individuals, ∃ a, d.adjusted_fitness = some a ∧ 0 ≤ a) :
    ∃ a, Species.accumulated_adjusted_fitness sp = some a ∧ 0 ≤ a ∧
      (sp.individuals = [] → a = 0) := by
  obtain ⟨t, ht, ht0⟩ := sum_adjusted_some sp.individuals h
  refine ⟨t, ht, ht0, ?_⟩
  intro hemp
  rw [hemp, sum_adjusted_nil] at ht
  injection ht with ht
  exact ht.symm

theorem total_and_count_cnt {I : Type} :
    ∀ (cs : List (Species I)) (t : ℚ) (cnt : Nat),
      Genus.total_and_count cs = some (t, cnt) →
      (∀ sp ∈ cs, ∃ a, Species.accumulated_adjusted_fitness sp = some a ∧ 0 ≤ a ∧
        (sp.individuals = [] → a = 0)) →
      cnt = 0 → t = 0
  | [], t, cnt => by
    intro h _ hcnt
    rw [Genus.total_and_count] at h
    injection h with h
    injection h with h1 h2
    exact h1.symm
  | sp :: rest, t, cnt => by
    intro h hfacts hcnt
    obtain ⟨a, ha, ha0, haemp⟩ := hfacts sp (by simp)
    rw [Genus.total_and_count] at h
    match htr : Genus.total_and_count rest with
    | none =>
      rw [htr, ha] at h
      simp at h
    | some (t', n') =>
      rw [htr, ha] at h
      injection h with h
      injection h with h1 h2
      have hn' : n' = 0 ∧ sp.len = 0 := by omega
      have hemp : sp.individuals = [] := List.length_eq_zero.mp hn'.2
      have ht' : t' = 0 :=
        total_and_count_cnt rest t' n' htr (fun e he => hfacts e (by simp [he])) hn'.1
      rw [← h1, ht', haemp hemp]
      norm_num

theorem cps_ok {I : Type} (avg : ℚ) (havg : 0 < avg) :
    ∀ cs : List (Species I),
      (∀ sp ∈ cs, ∃ a, Species.accumulated_adjusted_fitness sp = some a ∧ 0 ≤ a ∧
        (sp.individuals = [] → a = 0)) →
      ∃ quotas, Genus.calculate_population_size avg cs = .ok quotas ∧
        quotas.length = cs.length ∧
        (∀ (k : Nat) (sp : Species I), cs[k]? = some sp → sp.individuals = [] →
          quotas[k]? = some 0)
  | [] => by
    intro _
    exact ⟨[], rfl, rfl, by simp⟩
  | sp :: rest => by
    intro hfacts
    obtain ⟨a, ha, ha0, haemp⟩ := hfacts sp (by simp)
    obtain ⟨quotas, hq, hqlen, hqpt⟩ :=
      cps_ok avg havg rest (fun e he => hfacts e (by simp [he]))
    have hfl : ¬(⌊a / avg⌋ < 0) :=
      not_lt.mpr (Int.floor_nonneg.mpr (div_nonneg ha0 (le_of_lt havg)))
    refine ⟨⌊a / avg⌋.toNat :: quotas, ?_, by simp [hqlen], ?_⟩
    · rw [Genus.calculate_population_size, ha, hq]
      simp only [hfl, if_false]
    · intro k spk hk hkemp
      match k, hk with
      | 0, hk =>
        simp only [List.getElem?_cons_zero, Option.some.injEq] at hk
        subst hk
        have : a = 0 := haemp hkemp
        subst this
        simp
      | k + 1, hk =>
        simp only [List.getElem?_cons_succ] at hk ⊢
        exact hqpt k spk hk hkemp

theorem calc_avg_ok {I : Type} (c : SpeciesCollection I) (t : ℚ) (cnt : Nat)
    (h : Genus.total_and_count c.collection = some (t, cnt)) (ht : 0 < t) :
    Genus.calculate_average_fitness c = .ok (t / (cnt : ℚ)) := by
  unfold Genus.calculate_average_fitness
  rw [h]
  show (if t ≤ 0 then RRes.err "Total adjusted fitness is <= 0"
    else RRes.ok (t / (cnt : ℚ))) = RRes.ok (t / (cnt : ℚ))
  rw [if_neg (not_le.mpr ht)]

theorem c2_general {I : Type} (ops : IndividualOps I) (c : SpeciesCollection I) (n : Nat)
    (hne : c.collection ≠ [])
    (hadj : ∀ sp ∈ c.collection, ∀ d ∈ sp.individuals,
      ∃ a, d.adjusted_fitness = some a ∧ 0 ≤ a)
    (hpos : ∃ t cnt, Genus.total_and_count c.collection = some (t, cnt) ∧ 0 < t)
    (hfit : ∃ sp ∈ c.collection, ∃ d ∈ sp.individuals, (ops.fitness d.individual).isSome)
    (hids : (c.collection.map (·.id)).Nodup)
    (hcache : c.cache_need_updating = true ∨
      ∃ i, c.best = some i ∧ i < c.collection.length)
    (hn : 0 < n) :
    ∃ quotas c', Genus.count_offsprings ops c n = (.ok quotas, c') ∧
      quotas.sum = n ∧ quotas.length = c.collection.length := by
  obtain ⟨t, cnt, htac, ht⟩ := hpos
  have hfacts : ∀ sp ∈ c.collection, ∃ a, Species.accumulated_adjusted_fitness sp = some a ∧
      0 ≤ a ∧ (sp.individuals = [] → a = 0) :=
    fun sp hsp => accumulated_facts sp (hadj sp hsp)
  have hcnt : cnt ≠ 0 := by
    intro h0
    exact ht.ne' (total_and_count_cnt c.collection t cnt htac hfacts h0)
  have havgpos : 0 < t / (cnt : ℚ) :=
    div_pos ht (by exact_mod_cast Nat.pos_of_ne_zero hcnt)
  have havg := calc_avg_ok c t cnt htac ht
  obtain ⟨quotas, hcps, hqlen, hqpt⟩ := cps_ok (t / (cnt : ℚ)) havgpos c.collection hfacts
  by_cases hmiss : ((n : Int) - (quotas.sum : Int)) = 0
  · refine ⟨quotas, c, ?_, by omega, hqlen⟩
    unfold Genus.count_offsprings
    rw [if_neg (by omega)]
    simp only [havg, hcps]
    rw [if_pos hmiss]
  · by_cases hshort : quotas.sum < n
    · obtain ⟨i, c', hgb, hilt, hc'coll⟩ := get_best_ok ops c hne hcache hfit
      have hiq : i < quotas.length := by omega
      have hqi : quotas[i]? = some (quotas.get ⟨i, hiq⟩) := List.getElem?_eq_getElem hiq
      have hcor : Genus.correct_population_size ops c quotas
          ((n : Int) - (quotas.sum : Int)) =
          (.ok (quotas.set i ((quotas.get ⟨i, hiq⟩) + ((n : Int) - (quotas.sum : Int)).toNat)),
            c') := by
        unfold Genus.correct_population_size
        rw [if_pos (by omega)]
        simp only [hgb, hqi]
      have hstep := sum_set_nat quotas i
        ((quotas.get ⟨i, hiq⟩) + ((n : Int) - (quotas.sum : Int)).toNat) (quotas.get ⟨i, hiq⟩) hqi
      have htn : ((n : Int) - (quotas.sum : Int)).toNat = n - quotas.sum := by omega
      have hsum' : (quotas.set i
          ((quotas.get ⟨i, hiq⟩) + ((n : Int) - (quotas.sum : Int)).toNat)).sum = n := by omega
      refine ⟨_, c', ?_, hsum', by simp [hqlen]⟩
      unfold Genus.count_offsprings
      rw [if_neg (by omega)]
      simp only [havg, hcps]
      rw [if_neg hmiss]
      simp only [hcor]
      rw [if_pos hsum']
    · have hover : n < quotas.sum := by
        rcases Nat.lt_trichotomy quotas.sum n with h | h | h
        · exact absurd h hshort
        · exact absurd (by omega) hmiss
        · exact h
      have htn : (-((n : Int) - (quotas.sum : Int))).toNat = quotas.sum - n := by omega
      obtain ⟨q', hq', hq'sum, hq'len⟩ := correct_loop_ok ops c n hn hids
        (c.collection.length + 2) quotas (quotas.sum - n) []
        hqlen (by omega)
        (by
          intro h0 k sp hk hor
          rcases hor with hor | hor
          · exact hqpt k sp hk hor
          · simp at hor)
        (by
          have h1 := List.length_filter_le (fun x => decide (¬x ∈ ([] : List Nat)))
            (c.collection.map (·.id))
          have h2 : (c.collection.map (·.id)).length = c.collection.length := by simp
          omega)
      have hcor : Genus.correct_population_size ops c quotas
          ((n : Int) - (quotas.sum : Int)) = (.ok q', c) := by
        unfold Genus.correct_population_size
        rw [if_neg (by omega), if_pos (by omega)]
        rw [htn, hq']
      refine ⟨q', c, ?_, hq'sum, by omega⟩
      unfold Genus.count_offsprings
      rw [if_neg (by omega)]
      simp only [havg, hcps]
      rw [if_neg hmiss]
      simp only [hcor]
      rw [if_pos (by omega)]

/-- Claim C2, counterexample: a Genus with one (non-empty) species, a positive
total accumulated adjusted fitness (1) and requested total 2 on which
`count_offsprings` PANICS instead of returning Ok: the lone member has no raw
fitness, so when the floored quotas undershoot, `get_best()` finds no species
with a best fitness and the `.expect("a best species to be found")` fires. -/
theorem c2_counterexample :
    (Genus.count_offsprings opsNone collC2x 2).1 = .panic ∧
    collC2x.collection ≠ [] ∧
    Genus.total_and_count collC2x.collection = some (1, 1) ∧
    (0 : ℚ) < 1 := by
  refine ⟨?_, by simp [collC2x], ?_, by norm_num⟩
  · norm_num [Genus.count_offsprings, Genus.calculate_average_fitness, Genus.total_and_count,
      Genus.calculate_population_size, Genus.correct_population_size,
      Species.accumulated_adjusted_fitness, Species.sum_adjusted, Species.len,
      SpeciesCollection.get_best, SpeciesCollection.update_cache,
      SpeciesCollection.cache_fold, Species.get_best_fitness, Species.get_best_individual,
      Species.best_fold, List.enum, List.enumFrom, collC2x, opsNone, natOps]
  · norm_num [Genus.total_and_count, Species.accumulated_adjusted_fitness,
      Species.sum_adjusted, Species.len, collC2x]

/-- Claim C2, amended: for every Genus whose non-empty species list has
pairwise-distinct ids (global invariant 1), in which every individual's
adjusted fitness is present and non-negative, at least one individual has an
evaluated raw fitness, the best-index cache is either marked for recomputation
or holds a valid index, and the total accumulated adjusted fitness is
positive: for every requested total greater than 0, `count_offsprings`
returns Ok with a per-species quota vector (indexed like the species list)
whose sum equals the requested total exactly.  In particular, for the spec's
scenario — accumulated adjusted fitness [30, 10] over 10 individuals,
average 4 — the raw floored quotas are [7, 2] and the missing 1 goes to the
best (first) species, giving [8, 2]. -/
theorem c2_theorem :
    (∀ (I : Type) (ops : IndividualOps I) (c : SpeciesCollection I) (n : Nat),
      c.collection ≠ [] →
      (∀ sp ∈ c.collection, ∀ d ∈ sp.individuals,
        ∃ a, d.adjusted_fitness = some a ∧ 0 ≤ a) →
      (∃ t cnt, Genus.total_and_count c.collection = some (t, cnt) ∧ 0 < t) →
      (∃ sp ∈ c.collection, ∃ d ∈ sp.individuals, (ops.fitness d.individual).isSome) →
      (c.collection.map (·.id)).Nodup →
      (c.cache_need_updating = true ∨ ∃ i, c.best = some i ∧ i < c.collection.length) →
      0 < n →
      ∃ quotas c', Genus.count_offsprings ops c n = (.ok quotas, c') ∧
        quotas.sum = n ∧ quotas.length = c.collection.length) ∧
    Genus.calculate_population_size 4 collC2.collection = .ok [7, 2] ∧
    (Genus.count_offsprings opsC2 collC2 10).1 = .ok [8, 2] := by
  refine ⟨fun I ops c n hne hadj hpos hfit hids hcache hn =>
    c2_general ops c n hne hadj hpos hfit hids hcache hn, ?_, ?_⟩
  · norm_num [Genus.calculate_population_size, Species.accumulated_adjusted_fitness,
      Species.sum_adjusted, collC2, spC2a, spC2b]
    decide
  · norm_num [Genus.count_offsprings, Genus.calculate_average_fitness, Genus.total_and_count,
      Genus.calculate_population_size, Genus.correct_population_size,
      Species.accumulated_adjusted_fitness, Species.sum_adjusted, Species.len,
      SpeciesCollection.get_best, SpeciesCollection.update_cache,
      SpeciesCollection.cache_fold, Species.get_best_fitness, Species.get_best_individual,
      Species.best_fold, opt_gt_some_some, List.enum, List.enumFrom,
      collC2, spC2a, spC2b, opsC2, natOps]
    decide

/-- Claim C2 witness: the general statement applied to the scenario
collection. -/
theorem c2_witness :
    ∃ quotas c', Genus.count_offsprings opsC2 collC2 10 = (.ok quotas, c') ∧
      quotas.sum = 10 ∧ quotas.length = collC2.collection.length := by
  refine c2_theorem.1 Nat opsC2 collC2 10 ?_ ?_ ?_ ?_ ?_ ?_ ?_
  · simp [collC2]
  · intro sp hsp d hd
    simp [collC2] at hsp
    rcases hsp with rfl | rfl
    · simp [spC2a] at hd
      rcases hd with rfl | rfl | rfl | rfl | rfl | rfl <;> exact ⟨5, rfl, by norm_num⟩
    · simp [spC2b] at hd
      rcases hd with rfl | rfl | rfl | rfl <;> exact ⟨5/2, rfl, by norm_num⟩
  · refine ⟨40, 10, ?_, by norm_num⟩
    norm_num [Genus.total_and_count, Species.accumulated_adjusted_fitness,
      Species.sum_adjusted, Species.len, collC2, spC2a, spC2b]
  · exact ⟨spC2a, by simp [collC2], ⟨0, some 5⟩, by simp [spC2a],
      by norm_num [opsC2, natOps]⟩
  · simp [collC2, spC2a, spC2b]
  · exact Or.inl rfl
  · norm_num
